import Mathlib

/-!
Verification of the UCG configuration-language core (lexer/parser/evaluator)
against its natural-language specification.  The Rust sources are shallowly
embedded: pure functions become Lean functions, the builder state is threaded
explicitly, fallible code returns `Except`, and the recursive evaluator takes
an explicit fuel argument.  Embedded definitions follow `src/ast/mod.rs`,
`src/build/mod.rs` and `src/parse/precedence.rs`; the handful of items whose
defining file is not part of the source tree (notably `Val`'s helper methods
from `build/ir.rs` and the error enum from `error.rs`) are modelled from the
specification and marked as such in their doc comments.
-/

namespace UCG

/-- Source position: line, column and byte offset (src/ast/mod.rs, `Position`). -/
structure Position where
  line : Nat
  column : Nat
  offset : Nat
deriving Repr, DecidableEq

/-- Token kinds (src/ast/mod.rs, `TokenType`). -/
inductive TokenType where
  | EMPTY
  | BOOLEAN
  | END
  | WS
  | COMMENT
  | QUOTED
  | PIPEQUOTE
  | DIGIT
  | BAREWORD
  | PUNCT
deriving Repr, DecidableEq

/-- Lexical token: kind, fragment and position (src/ast/mod.rs, `Token`). -/
structure Token where
  typ : TokenType
  fragment : String
  pos : Position
deriving Repr, DecidableEq

/-- Attaches a position to a value (src/ast/mod.rs, `PositionedItem`).  The Rust
`PartialEq`, `Ord` and `Hash` implementations compare only the `val` component,
so every map keyed by `PositionedItem<String>` below compares keys by `.val`. -/
structure PositionedItem (α : Type) where
  pos : Position
  val : α
deriving Repr, DecidableEq

/-- Conversion from a token to a positioned name, as the Rust
`impl From<&Token> for PositionedItem<String>`. -/
def Token.toPItem (t : Token) : PositionedItem String :=
  { pos := t.pos, val := t.fragment }

/-- Error kinds.  Modelled from the spec: `error.rs` is not part of the source
tree; the constructor names are those used by `src/build/mod.rs` and listed in
the specification's error-handling section. -/
inductive ErrorType where
  | ParseError
  | UnexpectedToken
  | TypeFail
  | NoSuchSymbol
  | BadArgLen
  | DuplicateBinding
  | ReservedWordError
  | Unsupported
  | IoError
  | AssertError
deriving Repr, DecidableEq

/-- A build error: message, kind and position (matching the
`error::BuildError::new(msg, kind, pos)` calls in src/build/mod.rs). -/
structure BuildError where
  msg : String
  typ : ErrorType
  pos : Position
deriving Repr, DecidableEq

/-- Evaluation failures.  `build` wraps a `BuildError`; `panicStop` models a
Rust panic (e.g. `unwrap` on `None`); `native` models a non-`BuildError` boxed
error (e.g. an integer-parse failure); `outOfFuel` is an artifact of the fuel
based embedding and never corresponds to a source behaviour. -/
inductive Err where
  | build (e : BuildError)
  | panicStop (msg : String)
  | native (msg : String)
  | outOfFuel
deriving Repr, DecidableEq

/-- Binary arithmetic operators evaluated by `Builder::eval_binary`
(src/build/mod.rs). -/
inductive BinaryExprType where
  | Add
  | Sub
  | Mul
  | Div
deriving Repr, DecidableEq

/-- Comparison operators evaluated by `Builder::eval_compare`
(src/build/mod.rs). -/
inductive CompareType where
  | Equal
  | GT
  | LT
  | NotEqual
  | GTEqual
  | LTEqual
deriving Repr, DecidableEq

/-- The two list operations (src/ast/mod.rs, `ListOpType`). -/
inductive ListOpType where
  | Map
  | Filter
deriving Repr, DecidableEq

mutual
/-- Parser-level literal values (src/ast/mod.rs, `Value`).  Constructor
payloads inline the corresponding `*Def` structures. -/
inductive Value where
  | Empty (pos : Position)
  | Boolean (b : PositionedItem Bool)
  | Int (i : PositionedItem Int)
  | Float (f : PositionedItem Float)
  | Str (s : PositionedItem String)
  | Symbol (s : PositionedItem String)
  | Tuple (fields : List (Token × Expression)) (pos : Position)
  | List (elems : List Expression) (pos : Position)
  | Selector (sel : SelectorDefT)

/-- A selector: position, head expression and optional dotted tail
(src/ast/mod.rs, `SelectorDef` + `SelectorList`, flattened). -/
inductive SelectorDefT where
  | mk (pos : Position) (head : Expression) (tail : Option (List Token))

/-- Expressions (src/ast/mod.rs, `Expression`), restricted to the fragment
exercised by the verified claims: `Format`, `Call`, `Select`, `Macro` and
`Module` literals are omitted (no claim constructs them; macro values enter
scopes directly as `Val.Macro`). -/
inductive Expression where
  | Simple (v : Value)
  | Binary (kind : BinaryExprType) (left : Expression) (right : Expression) (pos : Position)
  | Compare (kind : CompareType) (left : Expression) (right : Expression) (pos : Position)
  | Copy (selector : SelectorDefT) (fields : List (Token × Expression)) (pos : Position)
  | Grouped (e : Expression)
  | ListOp (typ : ListOpType) (mac : SelectorDefT) (field : String) (target : Expression) (pos : Position)
end

mutual
/-- Reduced runtime values (`Val`, declared in build/ir.rs which is not part of
the source tree; the constructor list follows the spec's Reduced Value section
and the exhaustive `match`es over `Val` in src/build/mod.rs and
src/convert/toml.rs).  `Module` values are outside the verified fragment and
omitted. -/
inductive Val where
  | Empty
  | Boolean (b : Bool)
  | Int (i : Int)
  | Float (f : Float)
  | Str (s : String)
  | List (elems : List Val)
  | Tuple (fields : List (PositionedItem String × Val))
  | Macro (m : MacroDefT)
  | Env (vars : List (String × String))

/-- A macro definition captured as a value (src/ast/mod.rs, `MacroDef`). -/
inductive MacroDefT where
  | mk (argdefs : List (PositionedItem String)) (fields : List (Token × Expression)) (pos : Position)
end

/-- Argument names of a macro definition. -/
def MacroDefT.argdefs : MacroDefT → List (PositionedItem String)
  | .mk a _ _ => a

/-- Field list of a macro definition. -/
def MacroDefT.fields : MacroDefT → List (Token × Expression)
  | .mk _ f _ => f

/-- Position of a macro definition. -/
def MacroDefT.pos : MacroDefT → Position
  | .mk _ _ p => p

/-- Position of a selector. -/
def SelectorDefT.pos : SelectorDefT → Position
  | .mk p _ _ => p

/-- Head expression of a selector. -/
def SelectorDefT.head : SelectorDefT → Expression
  | .mk _ h _ => h

/-- Dotted tail of a selector. -/
def SelectorDefT.tail : SelectorDefT → Option (List Token)
  | .mk _ _ t => t

/-- Type name of a reduced value, as printed in error messages.  Modelled from
the spec: `Val::type_name` lives in build/ir.rs which is not part of the
source tree; names follow the kind names used by the spec and by
`Value::type_name` in src/ast/mod.rs. -/
def Val.type_name : Val → String
  | .Empty => "EmptyValue"
  | .Boolean _ => "Boolean"
  | .Int _ => "Integer"
  | .Float _ => "Float"
  | .Str _ => "String"
  | .List _ => "List"
  | .Tuple _ => "Tuple"
  | .Macro _ => "Macro"
  | .Env _ => "Env"

/-- Kind equality of reduced values.  Modelled from the spec: `Val::type_equal`
lives in build/ir.rs which is not part of the source tree; the spec requires
overwrite values to be "type-equal to the original (by the reduced-value
kind)", i.e. the two values bear the same constructor. -/
def Val.type_equal : Val → Val → Bool
  | .Empty, .Empty => true
  | .Boolean _, .Boolean _ => true
  | .Int _, .Int _ => true
  | .Float _, .Float _ => true
  | .Str _, .Str _ => true
  | .List _, .List _ => true
  | .Tuple _, .Tuple _ => true
  | .Macro _, .Macro _ => true
  | .Env _, .Env _ => true
  | _, _ => false

/-- Emptiness test on reduced values.  Modelled from the spec: `Val::is_empty`
lives in build/ir.rs which is not part of the source tree; the spec's overwrite
rule exempts a value exactly when it is `Empty`. -/
def Val.is_empty : Val → Bool
  | .Empty => true
  | _ => false

mutual
/-- Structural deep equality of reduced values.  Modelled from the spec:
`Val::equal` lives in build/ir.rs which is not part of the source tree; the
spec defines `==` as "structural deep equality; shapes and field orders must
match".  Only same-kind primitive comparisons are exercised by the claims. -/
def valEqual : Val → Val → Bool
  | .Empty, .Empty => true
  | .Boolean a, .Boolean b => a == b
  | .Int a, .Int b => a == b
  | .Float a, .Float b => a == b
  | .Str a, .Str b => a == b
  | .List a, .List b => valListEqual a b
  | .Tuple a, .Tuple b => valFieldsEqual a b
  | .Env a, .Env b => a == b
  | _, _ => false

/-- Elementwise deep equality of value lists. -/
def valListEqual : List Val → List Val → Bool
  | [], [] => true
  | a :: as_, b :: bs => valEqual a b && valListEqual as_ bs
  | _, _ => false

/-- Fieldwise deep equality of tuple field lists: names (by `.val`) and values
must match in order. -/
def valFieldsEqual : List (PositionedItem String × Val) → List (PositionedItem String × Val) → Bool
  | [], [] => true
  | (ka, va) :: as_, (kb, vb) :: bs =>
      ka.val == kb.val && valEqual va vb && valFieldsEqual as_ bs
  | _, _ => false
end

/-- Position of a parser-level value (src/ast/mod.rs, `Value::pos`). -/
def Value.pos : Value → Position
  | .Empty p => p
  | .Boolean b => b.pos
  | .Int i => i.pos
  | .Float f => f.pos
  | .Str s => s.pos
  | .Symbol s => s.pos
  | .Tuple _ p => p
  | .List _ p => p
  | .Selector sel => sel.pos

/-- Position of an expression (src/ast/mod.rs, `Expression::pos`). -/
def Expression.pos : Expression → Position
  | .Simple v => v.pos
  | .Binary _ _ _ p => p
  | .Compare _ _ _ p => p
  | .Copy _ _ p => p
  | .Grouped e => e.pos
  | .ListOp _ _ _ _ p => p

/-- Stringification of tuple field names (src/ast/mod.rs,
`Value::fields_to_string`). -/
def fields_to_string (v : List (Token × Expression)) : String :=
  "\x7b\n" ++ v.foldl (fun acc t => acc ++ "\t" ++ t.1.fragment ++ "\n") "" ++ "\x7d"

/-- Stringification of list literals: just the element count (src/ast/mod.rs,
`Value::elems_to_string`). -/
def elems_to_string (v : List Expression) : String :=
  toString v.length

/-- Stringified form of a parser-level value (src/ast/mod.rs,
`Value::to_string`; the `Selector` arm delegates to
`SelectorList::to_string`, which returns the literal string "TODO"). -/
def Value.to_string : Value → String
  | .Empty _ => "EmptyValue"
  | .Boolean b => toString b.val
  | .Int i => toString i.val
  | .Float f => toString f.val
  | .Str s => s.val
  | .Symbol s => s.val
  | .Tuple fs _ => fields_to_string fs
  | .List elems _ => "[" ++ elems_to_string elems ++ "]"
  | .Selector _ => "TODO"

/-- The `Display` rendering of an expression (src/ast/mod.rs,
`impl fmt::Display for Expression`); only used inside error messages. -/
def Expression.display : Expression → String
  | .Simple v => v.to_string
  | .Binary _ _ _ _ => "<Expr>"
  | .Compare _ _ _ _ => "<Expr>"
  | .Copy _ _ _ => "<Copy>"
  | .Grouped _ => "(<Expr>)"
  | .ListOp _ _ _ _ _ => "<Expr>"

/-- The `Display` rendering of a selector list (src/ast/mod.rs,
`impl fmt::Display for SelectorList`): the head followed by ".fragment" for
each tail token. -/
def selectorListDisplay (sel : SelectorDefT) : String :=
  sel.head.display ++
    (match sel.tail with
     | some toks => toks.foldl (fun acc t => acc ++ "." ++ t.fragment) ""
     | none => "")

/-- The `Display` rendering of a reduced value.  Modelled from the spec: the
`Display` impl lives in build/ir.rs which is not part of the source tree; it
only feeds error-message text, which no claim depends on. -/
def Val.display (v : Val) : String :=
  v.type_name

/-- Assertion result collector (src/build/mod.rs, `AssertCollector`): a
success flag and two string buffers.  The struct has exactly these three
fields. -/
structure AssertCollector where
  success : Bool
  summary : String
  failures : String
deriving Repr, DecidableEq

/-- Per-file builder state (src/build/mod.rs, `Builder`).  `file` holds the
display form of the root `PathBuf` (used only inside error messages here; the
structural path handling of `build_import` is modelled separately for the
import-resolution claim).  The asset cache and `curr_file` are omitted: no
verified claim evaluates an `import`. -/
structure Builder where
  file : String
  validate_mode : Bool
  strict : Bool
  env : Val
  build_output : List (PositionedItem String × Val)
  stack : Option (List Val)
  is_module : Bool
  out_lock : Option (String × Val)
  assert_collector : AssertCollector

/-- Membership test on a map keyed by `PositionedItem<String>`; Rust `HashMap`
key equality compares only `.val`. -/
def pmapContains {β : Type} (m : List (PositionedItem String × β)) (k : PositionedItem String) : Bool :=
  m.any fun p => p.1.val == k.val

/-- Lookup on a map keyed by `PositionedItem<String>` (`.val` comparison). -/
def pmapGet {β : Type} (m : List (PositionedItem String × β)) (k : PositionedItem String) : Option β :=
  (m.find? fun p => p.1.val == k.val).map fun p => p.2

/-- The reserved-word check (src/build/mod.rs, `Builder::check_reserved_word`). -/
def check_reserved_word (name : String) : Bool :=
  name == "self" || name == "assert" || name == "true" || name == "false" ||
  name == "let" || name == "import" || name == "as" || name == "select" ||
  name == "macro" || name == "module" || name == "env" || name == "map" ||
  name == "filter" || name == "NULL" || name == "out"

/-- Push a value on the self stack (src/build/mod.rs, `Builder::push_val`):
appends at the end of the backing `Vec`. -/
def Builder.push_val (b : Builder) (t : Val) : Builder :=
  match b.stack with
  | some v => { b with stack := some (v ++ [t]) }
  | none => { b with stack := some [t] }

/-- Pop the self stack, discarding the popped value (src/build/mod.rs,
`Builder::pop_val`, used as `self.pop_val();`): removes the LAST element of
the backing `Vec`. -/
def Builder.pop_val_b (b : Builder) : Builder :=
  match b.stack with
  | some v => { b with stack := some v.dropLast }
  | none => b

/-- Peek the self stack (src/build/mod.rs, `Builder::peek_val`).  Note the
source reads `v.first()`: the FIRST (bottom) element of the backing `Vec`,
even though `push_val`/`pop_val` treat its end as the top. -/
def Builder.peek_val (b : Builder) : Option Val :=
  match b.stack with
  | some v => v.head?
  | none => none

/-- Symbol lookup (src/build/mod.rs, `Builder::lookup_sym`): `env` yields the
environment pseudo-tuple, `self` peeks the self stack, anything else is looked
up in the build output. -/
def Builder.lookup_sym (b : Builder) (sym : PositionedItem String) : Option Val :=
  if sym.val == "env" then some b.env
  else if sym.val == "self" then b.peek_val
  else if pmapContains b.build_output sym then pmapGet b.build_output sym
  else none

/-- Linear scan of a tuple field list, returning the first field with the
given name (src/build/mod.rs, `Builder::find_in_fieldlist`). -/
def find_in_fieldlist (target : String) : List (PositionedItem String × Val) → Option Val
  | [] => none
  | (key, v) :: rest => if target == key.val then some v else find_in_fieldlist target rest

/-- Environment lookup during selector evaluation (src/build/mod.rs,
`Builder::lookup_in_env`).  Faithful to the source loop: the `else if !strict`
branch fires on the FIRST non-matching entry, and the not-set error is reached
when the variable list is exhausted (in particular also in non-strict mode when
the list is empty).  The source pushes the result onto the selector deque;
here it is returned. -/
def lookup_in_env (strict : Bool) (search : Token) : List (String × String) → Except Err Val
  | [] =>
      .error (.build ⟨"Environment Variable " ++ search.fragment ++ " not set",
        .NoSuchSymbol, search.pos⟩)
  | (name, v) :: rest =>
      if search.fragment == name then .ok (.Str v)
      else if !strict then .ok .Empty
      else lookup_in_env strict search rest

/-- Tuple-field lookup during selector evaluation (src/build/mod.rs,
`Builder::lookup_in_tuple`). -/
def lookup_in_tuple (file : String) (slDisp : String) (next : Token)
    (fs : List (PositionedItem String × Val)) : Except Err Val :=
  match find_in_fieldlist next.fragment fs with
  | some vv => .ok vv
  | none =>
      .error (.build ⟨"Unable to match element " ++ next.fragment ++
        " in selector path [" ++ slDisp ++ "] in file: " ++ file,
        .NoSuchSymbol, next.pos⟩)

/-- List-index lookup during selector evaluation (src/build/mod.rs,
`Builder::lookup_in_list`); the index token is parsed as an unsigned integer,
and a parse failure surfaces as the boxed `ParseIntError`. -/
def lookup_in_list (file : String) (slDisp : String) (next : Token)
    (elems : List Val) : Except Err Val :=
  match next.fragment.toNat? with
  | none => .error (.native "invalid digit found in string")
  | some idx =>
      match elems.get? idx with
      | some v => .ok v
      | none =>
          .error (.build ⟨"Unable to match element " ++ next.fragment ++
            " in selector path [" ++ slDisp ++ "] in file: " ++ file,
            .NoSuchSymbol, next.pos⟩)

/-- The selector walking loop (src/build/mod.rs, `Builder::lookup_selector`,
`loop` body).  The source pops the front of the deque BEFORE testing whether
segments remain (an empty deque is an `unwrap` panic), then dispatches on the
popped value and pushes the match result at the back. -/
def sel_loop (strict : Bool) (file : String) (slDisp : String) :
    List Val → List Token → Except Err Val
  | [], _ => .error (.panicStop "stack.pop_front().unwrap() on empty deque")
  | vref :: _, [] => .ok vref
  | vref :: stackRest, next :: rest =>
      match vref with
      | .Tuple fs => do
          let vv ← lookup_in_tuple file slDisp next fs
          sel_loop strict file slDisp (stackRest ++ [vv]) rest
      | .Env fs => do
          let vv ← lookup_in_env strict next fs
          sel_loop strict file slDisp (stackRest ++ [vv]) rest
      | .List elems => do
          let vv ← lookup_in_list file slDisp next elems
          sel_loop strict file slDisp (stackRest ++ [vv]) rest
      | _ =>
          .error (.build ⟨vref.display ++ " is not a Tuple or List",
            .TypeFail, next.pos⟩)

/-- Type of the recursive expression evaluator, threaded through the helper
definitions so that the single fuel-indexed `eval_expr` below ties the knot. -/
abbrev EvalFn := Builder → Expression → Except Err (Builder × Val)

/-- Selector evaluation (src/build/mod.rs, `Builder::lookup_selector`):
evaluate the head, seed the deque when the head is a tuple, list or the
environment pseudo-tuple, then walk the tail. -/
def lookup_selector (evalE : EvalFn) (b : Builder) (sl : SelectorDefT) :
    Except Err (Builder × Val) := do
  let (b1, first) ← evalE b sl.head
  let stack0 : List Val :=
    match first with
    | .Tuple _ => [first]
    | .List _ => [first]
    | .Env _ => [first]
    | _ => []
  match sl.tail with
  | some tail =>
      if tail.length == 0 then .ok (b1, first)
      else do
        let v ← sel_loop b1.strict b1.file (selectorListDisplay sl) stack0 tail
        .ok (b1, v)
  | none => .ok (b1, first)

/-- Addition (src/build/mod.rs, `Builder::add_vals`): Int+Int, Float+Float,
string concatenation and list concatenation. -/
def add_vals (pos : Position) (left right : Val) : Except Err Val :=
  match left with
  | .Int i =>
      match right with
      | .Int ii => .ok (.Int (i + ii))
      | v => .error (.build ⟨"Expected Integer but got " ++ v.display, .TypeFail, pos⟩)
  | .Float f =>
      match right with
      | .Float ff => .ok (.Float (f + ff))
      | v => .error (.build ⟨"Expected Float but got " ++ v.display, .TypeFail, pos⟩)
  | .Str s =>
      match right with
      | .Str ss => .ok (.Str (s ++ ss))
      | v => .error (.build ⟨"Expected String but got " ++ v.display, .TypeFail, pos⟩)
  | .List l =>
      match right with
      | .List r => .ok (.List (l ++ r))
      | v => .error (.build ⟨"Expected List but got " ++ v.display, .TypeFail, pos⟩)
  | expr =>
      .error (.build ⟨expr.type_name ++ " does not support the \x27+\x27 operation",
        .Unsupported, pos⟩)

/-- Subtraction (src/build/mod.rs, `Builder::subtract_vals`). -/
def subtract_vals (pos : Position) (left right : Val) : Except Err Val :=
  match left with
  | .Int i =>
      match right with
      | .Int ii => .ok (.Int (i - ii))
      | v => .error (.build ⟨"Expected Integer but got " ++ v.display, .TypeFail, pos⟩)
  | .Float f =>
      match right with
      | .Float ff => .ok (.Float (f - ff))
      | v => .error (.build ⟨"Expected Float but got " ++ v.display, .TypeFail, pos⟩)
  | expr =>
      .error (.build ⟨expr.type_name ++ " does not support the \x27-\x27 operation",
        .Unsupported, pos⟩)

/-- Multiplication (src/build/mod.rs, `Builder::multiply_vals`). -/
def multiply_vals (pos : Position) (left right : Val) : Except Err Val :=
  match left with
  | .Int i =>
      match right with
      | .Int ii => .ok (.Int (i * ii))
      | v => .error (.build ⟨"Expected Integer but got " ++ v.display, .TypeFail, pos⟩)
  | .Float f =>
      match right with
      | .Float ff => .ok (.Float (f * ff))
      | v => .error (.build ⟨"Expected Float but got " ++ v.display, .TypeFail, pos⟩)
  | expr =>
      .error (.build ⟨expr.type_name ++ " does not support the \x27*\x27 operation",
        .Unsupported, pos⟩)

/-- Division (src/build/mod.rs, `Builder::divide_vals`).  Rust `i64` division
truncates toward zero (`Int.tdiv`) and panics on a zero divisor. -/
def divide_vals (pos : Position) (left right : Val) : Except Err Val :=
  match left with
  | .Int i =>
      match right with
      | .Int ii =>
          if ii == 0 then .error (.panicStop "attempt to divide by zero")
          else .ok (.Int (Int.tdiv i ii))
      | v => .error (.build ⟨"Expected Integer but got " ++ v.display, .TypeFail, pos⟩)
  | .Float f =>
      match right with
      | .Float ff => .ok (.Float (f / ff))
      | v => .error (.build ⟨"Expected Float but got " ++ v.display, .TypeFail, pos⟩)
  | expr =>
      .error (.build ⟨expr.type_name ++ " does not support the \x27*\x27 operation",
        .Unsupported, pos⟩)

/-- Deep equality comparison (src/build/mod.rs, `Builder::do_deep_equal`). -/
def do_deep_equal (left right : Val) : Except Err Val :=
  .ok (.Boolean (valEqual left right))

/-- Negated deep equality (src/build/mod.rs, `Builder::do_not_deep_equal`). -/
def do_not_deep_equal (left right : Val) : Except Err Val :=
  .ok (.Boolean (!valEqual left right))

/-- Strict greater-than (src/build/mod.rs, `Builder::do_gt`). -/
def do_gt (pos : Position) (left right : Val) : Except Err Val :=
  match left, right with
  | .Int l, .Int r => .ok (.Boolean (decide (l > r)))
  | .Float l, .Float r => .ok (.Boolean (decide (l > r)))
  | _, _ =>
      .error (.build ⟨"Incompatible types for numeric comparison " ++
        left.type_name ++ " with " ++ right.type_name, .TypeFail, pos⟩)

/-- Strict less-than (src/build/mod.rs, `Builder::do_lt`). -/
def do_lt (pos : Position) (left right : Val) : Except Err Val :=
  match left, right with
  | .Int l, .Int r => .ok (.Boolean (decide (l < r)))
  | .Float l, .Float r => .ok (.Boolean (decide (l < r)))
  | _, _ =>
      .error (.build ⟨"Incompatible types for numeric comparison " ++
        left.type_name ++ " with " ++ right.type_name, .TypeFail, pos⟩)

/-- Less-or-equal (src/build/mod.rs, `Builder::do_ltequal`). -/
def do_ltequal (pos : Position) (left right : Val) : Except Err Val :=
  match left, right with
  | .Int l, .Int r => .ok (.Boolean (decide (l ≤ r)))
  | .Float l, .Float r => .ok (.Boolean (decide (l ≤ r)))
  | _, _ =>
      .error (.build ⟨"Incompatible types for numeric comparison " ++
        left.type_name ++ " with " ++ right.type_name, .TypeFail, pos⟩)

/-- Greater-or-equal (src/build/mod.rs, `Builder::do_gtequal`). -/
def do_gtequal (pos : Position) (left right : Val) : Except Err Val :=
  match left, right with
  | .Int l, .Int r => .ok (.Boolean (decide (l ≥ r)))
  | .Float l, .Float r => .ok (.Boolean (decide (l ≥ r)))
  | _, _ =>
      .error (.build ⟨"Incompatible types for numeric comparison " ++
        left.type_name ++ " with " ++ right.type_name, .TypeFail, pos⟩)

/-- Binary arithmetic evaluation (src/build/mod.rs, `Builder::eval_binary`):
left then right operand, then dispatch on the operator kind. -/
def eval_binary (evalE : EvalFn) (b : Builder) (kind : BinaryExprType)
    (left right : Expression) (pos : Position) : Except Err (Builder × Val) := do
  let (b1, l) ← evalE b left
  let (b2, r) ← evalE b1 right
  let v ←
    match kind with
    | .Add => add_vals pos l r
    | .Sub => subtract_vals pos l r
    | .Mul => multiply_vals pos l r
    | .Div => divide_vals pos l r
  .ok (b2, v)

/-- Comparison evaluation (src/build/mod.rs, `Builder::eval_compare`). -/
def eval_compare (evalE : EvalFn) (b : Builder) (kind : CompareType)
    (left right : Expression) (pos : Position) : Except Err (Builder × Val) := do
  let (b1, l) ← evalE b left
  let (b2, r) ← evalE b1 right
  let v ←
    match kind with
    | .Equal => do_deep_equal l r
    | .GT => do_gt pos l r
    | .LT => do_lt pos l r
    | .GTEqual => do_gtequal pos l r
    | .LTEqual => do_ltequal pos l r
    | .NotEqual => do_not_deep_equal l r
  .ok (b2, v)

/-- Entry lookup in the working map of `copy_from_base`: first entry whose key
has the same `.val` (Rust `HashMap` key equality on `PositionedItem<String>`). -/
def mFind (m : List (PositionedItem String × (Int × Val))) (k : PositionedItem String) :
    Option (Int × Val) :=
  (m.find? fun p => p.1.val == k.val).map fun p => p.2

/-- In-place value update of an occupied entry; the stored key (and hence its
position) is kept, as with `HashMap`'s occupied-entry `insert`. -/
def mUpdate (m : List (PositionedItem String × (Int × Val))) (k : PositionedItem String)
    (newv : Int × Val) : List (PositionedItem String × (Int × Val)) :=
  match m with
  | [] => []
  | (k0, iv) :: rest =>
      if k0.val == k.val then (k0, newv) :: rest else (k0, iv) :: mUpdate rest k newv

/-- First phase of `Builder::copy_from_base` (src/build/mod.rs): load the base
tuple's fields into the working map, numbering them in order; a duplicate base
field name pops the self stack and fails with `TypeFail` at the field's
position. -/
def build_base_map (m : List (PositionedItem String × (Int × Val))) (count : Int) :
    List (PositionedItem String × Val) →
    Except Err (List (PositionedItem String × (Int × Val)) × Int)
  | [] => .ok (m, count)
  | (key, v) :: rest =>
      if (mFind m key).isSome then
        .error (.build ⟨"Duplicate field: " ++ key.val ++ " in tuple", .TypeFail, key.pos⟩)
      else
        build_base_map (m ++ [(key, (count, v))]) (count + 1) rest

/-- Second phase of `Builder::copy_from_base` (src/build/mod.rs): evaluate the
overrides in declaration order.  A brand-new field is appended with the next
index; an overwrite must satisfy
`src.type_equal(new) || src.is_empty() || new.is_empty()` and keeps the
original index, otherwise the self stack is popped and evaluation fails with
`TypeFail` at the override's name token. -/
def copy_overrides_loop (evalE : EvalFn) (b : Builder)
    (m : List (PositionedItem String × (Int × Val))) (count : Int) :
    List (Token × Expression) →
    Except Err (Builder × List (PositionedItem String × (Int × Val)) × Int)
  | [] => .ok (b, m, count)
  | (key, vexpr) :: rest =>
      match evalE b vexpr with
      | .error e => .error e
      | .ok (b1, expr_result) =>
          match mFind m key.toPItem with
          | none =>
              copy_overrides_loop evalE b1 (m ++ [(key.toPItem, (count, expr_result))])
                (count + 1) rest
          | some (idx, src_val) =>
              if src_val.type_equal expr_result || src_val.is_empty || expr_result.is_empty then
                copy_overrides_loop evalE b1 (mUpdate m key.toPItem (idx, expr_result)) count rest
              else
                .error (.build ⟨"Expected type " ++ src_val.type_name ++ " for field " ++
                  key.fragment ++ " but got " ++ expr_result.type_name,
                  .TypeFail, key.pos⟩)

/-- Ordered insertion for the final `sort_by` of `copy_from_base`; field
indices are pairwise distinct, so any comparison sort produces this order. -/
def insert_by_index (x : PositionedItem String × (Int × Val)) :
    List (PositionedItem String × (Int × Val)) → List (PositionedItem String × (Int × Val))
  | [] => [x]
  | y :: ys => if x.2.1 ≤ y.2.1 then x :: y :: ys else y :: insert_by_index x ys

/-- Sort the drained working map by stored field index (src/build/mod.rs,
`copy_from_base`'s `new_fields.sort_by`). -/
def sort_by_index (m : List (PositionedItem String × (Int × Val))) :
    List (PositionedItem String × (Int × Val)) :=
  m.foldr insert_by_index []

/-- Tuple copy (src/build/mod.rs, `Builder::copy_from_base`): build the base
map, apply the overrides, pop the self stack, then emit the fields sorted by
their index. -/
def copy_from_base (evalE : EvalFn) (b : Builder)
    (src_fields : List (PositionedItem String × Val))
    (overrides : List (Token × Expression)) : Except Err (Builder × Val) :=
  match build_base_map [] 0 src_fields with
  | .error e => .error e
  | .ok (m0, count0) =>
      match copy_overrides_loop evalE b m0 count0 overrides with
      | .error e => .error e
      | .ok (b1, m1, _) =>
          .ok (b1.pop_val_b, .Tuple ((sort_by_index m1).map fun p => (p.1, p.2.2)))

/-- Copy-expression evaluation (src/build/mod.rs, `Builder::eval_copy`): the
selector must yield a tuple, which is pushed on the self stack before the
overrides run.  (The `Val::Module` branch is outside the verified fragment:
the embedded `Val` has no module values.)  Any other value is a `TypeFail` at
the selector's position. -/
def eval_copy (evalE : EvalFn) (b : Builder) (sel : SelectorDefT)
    (fields : List (Token × Expression)) : Except Err (Builder × Val) := do
  let (b1, v) ← lookup_selector evalE b sel
  match v with
  | .Tuple src_fields => copy_from_base evalE (b1.push_val v) src_fields fields
  | _ =>
      .error (.build ⟨"Expected Tuple or Module got " ++ v.display,
        .TypeFail, sel.pos⟩)

/-- Macro-call scope construction (src/build/mod.rs, `MacroDef::eval`): each
argument is bound to the argdef of the same position via
`scope.entry(argdefs[i]).or_insert(arg)` (first binding wins). -/
def macro_scope_loop (scope : List (PositionedItem String × Val)) :
    List (PositionedItem String) → List Val → List (PositionedItem String × Val)
  | _, [] => scope
  | [], _ :: _ => scope
  | ad :: ads, arg :: args =>
      macro_scope_loop (if pmapContains scope ad then scope else scope ++ [(ad, arg)]) ads args

/-- Fresh builder for a macro body or sub-file (src/build/mod.rs,
`Builder::new_with_env_and_scope`). -/
def Builder.new_with_env_and_scope (root : String)
    (scope : List (PositionedItem String × Val)) (env : Val) : Builder :=
  { file := root
    validate_mode := false
    strict := true
    env := env
    build_output := scope
    stack := none
    is_module := false
    out_lock := none
    assert_collector := { success := true, summary := "", failures := "" } }

/-- Evaluation of a macro's field list inside the fresh builder
(src/build/mod.rs, `MacroDef::eval`, final loop). -/
def macro_fields_eval (evalE : EvalFn) (b : Builder) :
    List (Token × Expression) → Except Err (List (PositionedItem String × Val))
  | [] => .ok []
  | (key, expr) :: rest => do
      let (b1, v) ← evalE b expr
      let vs ← macro_fields_eval evalE b1 rest
      .ok ((key.toPItem, v) :: vs)

/-- Macro expansion (src/build/mod.rs, `MacroDef::eval`): more arguments than
argdefs is a `BadArgLen` error at the macro's position; otherwise the fields
are evaluated in a fresh builder whose scope holds only the argument
bindings. -/
def macro_def_eval (evalE : EvalFn) (root : String) (env : Val) (m : MacroDefT)
    (args : List Val) : Except Err (List (PositionedItem String × Val)) :=
  if args.length > m.argdefs.length then
    .error (.build ⟨"Macro called with too many args in file: " ++ root,
      .BadArgLen, m.pos⟩)
  else
    macro_fields_eval evalE
      (Builder.new_with_env_and_scope root (macro_scope_loop [] m.argdefs args) env)
      m.fields

/-- Per-element loop of `Builder::eval_list_op` (src/build/mod.rs): call the
macro with the element as sole argument, project the named field.  A present
field is pushed for `map`; for `filter` the original element is kept unless
the projection is `Empty` or `Boolean(false)`.  A missing field contributes
nothing. -/
def list_op_loop (evalE : EvalFn) (file : String) (env : Val) (macdef : MacroDefT)
    (typ : ListOpType) (field : String) : List Val → Except Err (List Val)
  | [] => .ok []
  | item :: rest =>
      match macro_def_eval evalE file env macdef [item] with
      | .error e => .error e
      | .ok fields =>
          match list_op_loop evalE file env macdef typ field rest with
          | .error e => .error e
          | .ok tailOut =>
              match find_in_fieldlist field fields with
              | some v =>
                  match typ with
                  | .Map => .ok (v :: tailOut)
                  | .Filter =>
                      match v with
                      | .Empty => .ok tailOut
                      | .Boolean false => .ok tailOut
                      | _ => .ok (item :: tailOut)
              | none => .ok tailOut

/-- List-operation evaluation (src/build/mod.rs, `Builder::eval_list_op`):
the target must evaluate to a list (`TypeFail` at the target's position
otherwise) and the selector must resolve to a macro (`TypeFail` at the
operation's position otherwise). -/
def eval_list_op (evalE : EvalFn) (b : Builder) (typ : ListOpType)
    (mac : SelectorDefT) (field : String) (target : Expression) (pos : Position) :
    Except Err (Builder × Val) :=
  match evalE b target with
  | .error e => .error e
  | .ok (b1, maybe_list) =>
      match maybe_list with
      | .List elems =>
          match lookup_selector evalE b1 mac with
          | .error e => .error e
          | .ok (b2, mv) =>
              match mv with
              | .Macro macdef =>
                  match list_op_loop evalE b2.file b2.env macdef typ field elems with
                  | .error e => .error e
                  | .ok out => .ok (b2, .List out)
              | _ =>
                  .error (.build ⟨"Expected macro but got " ++ selectorListDisplay mac,
                    .TypeFail, pos⟩)
      | other =>
          .error (.build ⟨"Expected List as target but got " ++ other.type_name,
            .TypeFail, target.pos⟩)

/-- Field-list evaluation for tuple literals (src/build/mod.rs,
`Builder::tuple_to_val`): evaluate each field expression in order; no
duplicate-name check is performed here. -/
def eval_fields (evalE : EvalFn) (b : Builder) :
    List (Token × Expression) → Except Err (Builder × List (PositionedItem String × Val))
  | [] => .ok (b, [])
  | (name, expr) :: rest =>
      match evalE b expr with
      | .error e => .error e
      | .ok (b1, v) =>
          match eval_fields evalE b1 rest with
          | .error e => .error e
          | .ok (b2, vs) => .ok (b2, (name.toPItem, v) :: vs)

/-- Tuple-literal evaluation (src/build/mod.rs, `Builder::tuple_to_val`). -/
def tuple_to_val (evalE : EvalFn) (b : Builder) (fields : List (Token × Expression)) :
    Except Err (Builder × Val) := do
  let (b1, fs) ← eval_fields evalE b fields
  .ok (b1, .Tuple fs)

/-- Element-list evaluation for list literals (src/build/mod.rs,
`Builder::list_to_val`). -/
def eval_elems (evalE : EvalFn) (b : Builder) :
    List Expression → Except Err (Builder × List Val)
  | [] => .ok (b, [])
  | expr :: rest => do
      let (b1, v) ← evalE b expr
      let (b2, vs) ← eval_elems evalE b1 rest
      .ok (b2, v :: vs)

/-- Literal/symbol/selector evaluation (src/build/mod.rs,
`Builder::value_to_val`). -/
def value_to_val (evalE : EvalFn) (b : Builder) (v : Value) :
    Except Err (Builder × Val) :=
  match v with
  | .Empty _ => .ok (b, .Empty)
  | .Boolean bb => .ok (b, .Boolean bb.val)
  | .Int i => .ok (b, .Int i.val)
  | .Float f => .ok (b, .Float f.val)
  | .Str s => .ok (b, .Str s.val)
  | .Symbol s =>
      match b.lookup_sym s with
      | some sv => .ok (b, sv)
      | none =>
          .error (.build ⟨"Unable to find " ++ s.val ++ " in file: " ++ b.file,
            .NoSuchSymbol, s.pos⟩)
  | .List elems _ => do
      let (b1, vs) ← eval_elems evalE b elems
      .ok (b1, .List vs)
  | .Tuple fields _ => tuple_to_val evalE b fields
  | .Selector sel => lookup_selector evalE b sel

/-- The expression evaluator (src/build/mod.rs, `Builder::eval_expr`),
fuel-indexed to make the Rust recursion structural.  Every recursive use
consumes one unit of fuel; the source function is total on the programs the
claims evaluate, and the theorems below never depend on `outOfFuel`. -/
def eval_expr : Nat → Builder → Expression → Except Err (Builder × Val)
  | 0, _, _ => .error .outOfFuel
  | fuel + 1, b, expr =>
    match expr with
    | .Simple v => value_to_val (eval_expr fuel) b v
    | .Binary kind left right pos => eval_binary (eval_expr fuel) b kind left right pos
    | .Compare kind left right pos => eval_compare (eval_expr fuel) b kind left right pos
    | .Copy sel fields _ => eval_copy (eval_expr fuel) b sel fields
    | .Grouped e => eval_expr fuel b e
    | .ListOp typ mac field target pos => eval_list_op (eval_expr fuel) b typ mac field target pos

/-! Concrete fixtures used by the witnesses and counterexamples below. -/

/-- Shorthand for building positions in concrete programs. -/
def mkPos (line column offset : Nat) : Position :=
  { line := line, column := column, offset := offset }

/-- Shorthand for a bareword token. -/
def bw (s : String) (p : Position) : Token :=
  { typ := .BAREWORD, fragment := s, pos := p }

/-- Shorthand for a positioned name. -/
def pn (s : String) (p : Position) : PositionedItem String :=
  { pos := p, val := s }

/-- An integer literal expression. -/
def intExpr (i : Int) (p : Position) : Expression :=
  .Simple (.Int { pos := p, val := i })

/-- A string literal expression. -/
def strExpr (s : String) (p : Position) : Expression :=
  .Simple (.Str { pos := p, val := s })

/-- A bare symbol expression. -/
def symExpr (s : String) (p : Position) : Expression :=
  .Simple (.Symbol { pos := p, val := s })

/-- A head-only selector (a bare symbol with no dotted tail), as produced by
the parser for `t` in `t{ ... }`. -/
def symSelector (s : String) (p : Position) : SelectorDefT :=
  .mk p (symExpr s p) none

/-- A fresh builder over the given scope, as `Builder::new_with_scope` with an
empty process environment. -/
def testBuilder (scope : List (PositionedItem String × Val)) : Builder :=
  Builder.new_with_env_and_scope "test.ucg" scope (.Env [])

/-- The identity-projection macro `macro(x) => { v = x }` of the spec's filter
scenario. -/
def keepMacro : MacroDefT :=
  .mk [pn "x" (mkPos 1 17 16)] [(bw "v" (mkPos 1 25 24), symExpr "x" (mkPos 1 29 28))]
    (mkPos 1 11 10)

/-!
### Import path resolution (src/build/mod.rs, `Builder::build_import` and
`Builder::file_dir`)

Paths are modelled structurally as an absolute-flag plus a component list;
`canonicalize` touches the file system and is outside the model (the claim is
decided by the path computed before canonicalisation).
-/

/-- A file system path: `Rust PathBuf`, modelled as an absolute-flag and the
list of components. -/
structure PathT where
  absolute : Bool
  components : List String
deriving Repr, DecidableEq

/-- Rust `Path::is_relative`. -/
def PathT.is_relative (p : PathT) : Bool :=
  !p.absolute

/-- Rust `PathBuf::push`: pushing an absolute path replaces the receiver,
otherwise the components are appended. -/
def PathT.push (p q : PathT) : PathT :=
  if q.absolute then q else { absolute := p.absolute, components := p.components ++ q.components }

/-- The path `Builder::build_import` hands to `canonicalize`
(src/build/mod.rs lines 325-332): start from `self.file` — the importing
file's own path, NOT its directory — and `push` the import string onto it when
that string is relative; an absolute import string is used as-is. -/
def build_import_normalized (file importPath : PathT) : PathT :=
  if importPath.is_relative then file.push importPath else importPath

/-- Directory of the builder root (src/build/mod.rs, `Builder::file_dir`):
the parent when the root is a file, the root itself otherwise.  (`is_file`
asks the file system, so it enters as the `isFile` argument.)  Note that
`build_import` does NOT call this function. -/
def file_dir (file : PathT) (isFile : Bool) : PathT :=
  if isFile then { absolute := file.absolute, components := file.components.dropLast } else file

/-- Modelled from the spec: import resolution as the claim states it —
"resolve relative to the importing file's directory" for a relative import
string, absolute strings used as-is.  Used only to exhibit the divergence from
`build_import_normalized`. -/
def spec_import_resolve (file importPath : PathT) : PathT :=
  if importPath.is_relative then (file_dir file true).push importPath else importPath

/-!
### Assertion collector (src/build/mod.rs, `AssertCollector` and
`Builder::build_assert`)

`build_assert` parses and evaluates the assert token's fragment via
`eval_input` and then updates the collector.  The parser revision matching
src/build/mod.rs is not part of the source tree, so the collector update is
factored over the outcome of that parse/evaluate step (an `Except` whose error
carries the rendered message), and the theorems below supply the fragment's
AST explicitly and evaluate it with `eval_expr`.
-/

/-- Success line of `build_assert` (the `format!` at src/build/mod.rs
lines 1234-1237). -/
def assert_msg_ok (expr : String) (pos : Position) : String :=
  "OK - \x27" ++ expr ++ "\x27 at line: " ++ toString pos.line ++
    " column: " ++ toString pos.column ++ "\n"

/-- Failure line of `build_assert` (lines 1241-1244). -/
def assert_msg_not_ok (expr : String) (pos : Position) : String :=
  "NOT OK - \x27" ++ expr ++ "\x27 at line: " ++ toString pos.line ++
    " column: " ++ toString pos.column ++ "\n"

/-- Compile-error line of `build_assert` (lines 1219-1222). -/
def assert_msg_compile_err (expr : String) (pos : Position) (e : String) : String :=
  "NOT OK - \x27" ++ expr ++ "\x27 at line: " ++ toString pos.line ++
    " column: " ++ toString pos.column ++ "\n\tCompileError: " ++ e ++ "\n"

/-- Type-failure line of `build_assert` (lines 1251-1254). -/
def assert_msg_type_fail (expr : String) (pos : Position) (got : Val) : String :=
  "TYPE FAIL - \x27" ++ expr ++ "\x27 Expected Boolean got " ++ got.display ++
    " at line: " ++ toString pos.line ++ " column: " ++ toString pos.column ++ "\n"

/-- Collector update of `Builder::build_assert` (src/build/mod.rs lines
1207-1260) in validate mode, given the assert token and the outcome of
evaluating its fragment: an evaluation error and a `Boolean(false)` result
append to both buffers and clear the success flag; `Boolean(true)` appends to
the summary only; a non-Boolean result records a type failure.  The struct
update mirrors the source exactly — in particular there is no counter to
update. -/
def build_assert_collector (col : AssertCollector) (tok : Token)
    (res : Except String Val) : AssertCollector :=
  match res with
  | .error e =>
      { success := false
        summary := col.summary ++ assert_msg_compile_err tok.fragment tok.pos e
        failures := col.failures ++ assert_msg_compile_err tok.fragment tok.pos e }
  | .ok v =>
      match v with
      | .Boolean true =>
          { col with summary := col.summary ++ assert_msg_ok tok.fragment tok.pos }
      | .Boolean false =>
          { success := false
            summary := col.summary ++ assert_msg_not_ok tok.fragment tok.pos
            failures := col.failures ++ assert_msg_not_ok tok.fragment tok.pos }
      | other =>
          { success := false
            summary := col.summary ++ assert_msg_type_fail tok.fragment tok.pos other
            failures := col.failures ++ assert_msg_type_fail tok.fragment tok.pos other }

/-- The collector a fresh builder starts from (src/build/mod.rs,
`Builder::new_with_env_and_scope`). -/
def initial_collector : AssertCollector :=
  { success := true, summary := "", failures := "" }

/-!
### Precedence reduction of operand lists (src/parse/precedence.rs)

The operator-precedence stage first flattens the token stream into a list of
`Element`s (operands alternating with operators) and then reduces that list
with backtracking parsers over `SliceIter<Element>`.  The reduction stage is
embedded here.  This parser revision's AST keeps comparison operators and the
dot operator inside `BinaryExprType`; the reducer treats operand expressions
opaquely, so integer literals suffice as operand payloads.
-/

namespace Prec

/-- Operator kinds of the precedence.rs-era AST (`BinaryExprType` including
`DOT` and the comparison operators). -/
inductive OpType where
  | Add
  | Sub
  | Mul
  | Div
  | Equal
  | GT
  | LT
  | NotEqual
  | GTEqual
  | LTEqual
  | DOT
deriving Repr, DecidableEq

/-- Expressions as seen by the reducer: opaque operand payloads (integer
literals here) and the binary nodes it builds. -/
inductive PExpr where
  | Simple (i : PositionedItem Int)
  | Binary (kind : OpType) (left : PExpr) (right : PExpr) (pos : Position)
deriving Repr, DecidableEq

/-- Position of a reduced expression (`Expression::pos`); a binary node is
positioned at its left operand (src/parse/precedence.rs,
`tuple_to_binary_expression`). -/
def PExpr.pos : PExpr → Position
  | .Simple i => i.pos
  | .Binary _ _ _ p => p

/-- An element of the flattened operand list (src/parse/precedence.rs,
`Element`). -/
inductive Element where
  | Expr (e : PExpr)
  | Op (op : OpType)
deriving Repr, DecidableEq

/-- Outcome of an `abortable_parser` combinator over the element list:
`Complete` carries the unconsumed rest, `Fail` is recoverable (alternatives
may be tried), `Abort` is not. -/
inductive PResult (α : Type) where
  | Complete (rest : List Element) (val : α)
  | Fail
  | Abort
deriving Repr, DecidableEq

/-- A parser over the element list. -/
abbrev ElemParser (α : Type) := List Element → PResult α

/-- The `either!` combinator: try the second parser only when the first
fails recoverably. -/
def eitherP {α : Type} (a b : ElemParser α) : ElemParser α := fun i =>
  match a i with
  | .Fail => b i
  | r => r

/-- Take one operand off the element list (src/parse/precedence.rs,
`parse_expression`): end of input is an `Abort`, an operator a `Fail`. -/
def parse_expression : ElemParser PExpr := fun i =>
  match i with
  | [] => .Abort
  | .Expr e :: rest => .Complete rest e
  | .Op _ :: _ => .Fail

/-- Take the dot operator (src/parse/precedence.rs, `parse_dot_operator`). -/
def parse_dot_operator : ElemParser OpType := fun i =>
  match i with
  | .Op .DOT :: rest => .Complete rest .DOT
  | _ => .Fail

/-- Take `+` or `-` (src/parse/precedence.rs, `parse_sum_operator`). -/
def parse_sum_operator : ElemParser OpType := fun i =>
  match i with
  | .Op .Add :: rest => .Complete rest .Add
  | .Op .Sub :: rest => .Complete rest .Sub
  | _ => .Fail

/-- Take `*` or `/` (src/parse/precedence.rs, `parse_product_operator`). -/
def parse_product_operator : ElemParser OpType := fun i =>
  match i with
  | .Op .Mul :: rest => .Complete rest .Mul
  | .Op .Div :: rest => .Complete rest .Div
  | _ => .Fail

/-- Take a comparison operator (src/parse/precedence.rs,
`parse_compare_operator`). -/
def parse_compare_operator : ElemParser OpType := fun i =>
  match i with
  | .Op .Equal :: rest => .Complete rest .Equal
  | .Op .NotEqual :: rest => .Complete rest .NotEqual
  | .Op .GT :: rest => .Complete rest .GT
  | .Op .LT :: rest => .Complete rest .LT
  | .Op .GTEqual :: rest => .Complete rest .GTEqual
  | .Op .LTEqual :: rest => .Complete rest .LTEqual
  | _ => .Fail

/-- Build a binary node positioned at the left operand
(src/parse/precedence.rs, `tuple_to_binary_expression`). -/
def tuple_to_binary_expr (kind : OpType) (left right : PExpr) : PExpr :=
  .Binary kind left right left.pos

/-- The `do_binary_expr!` macro body (src/parse/precedence.rs lines 183-212):
one lower-rule operand, ONE operator of the given level, and one lower-rule
operand — there is no loop or recursion extending the chain. -/
def do_binary_expr (oprule : ElemParser OpType) (lowerrule : ElemParser PExpr) :
    ElemParser PExpr := fun i =>
  match lowerrule i with
  | .Complete i1 left =>
      match oprule i1 with
      | .Complete i2 typ =>
          match lowerrule i2 with
          | .Complete i3 right => .Complete i3 (tuple_to_binary_expr typ left right)
          | .Fail => .Fail
          | .Abort => .Abort
      | .Fail => .Fail
      | .Abort => .Abort
  | .Fail => .Fail
  | .Abort => .Abort

/-- Dot-level reduction (src/parse/precedence.rs, `dot_expression`). -/
def dot_expression : ElemParser PExpr :=
  do_binary_expr parse_dot_operator parse_expression

/-- Product-level reduction (src/parse/precedence.rs, `product_expression`). -/
def product_expression : ElemParser PExpr :=
  do_binary_expr parse_product_operator (eitherP dot_expression parse_expression)

/-- Sum-level reduction (src/parse/precedence.rs, `sum_expression`). -/
def sum_expression : ElemParser PExpr :=
  do_binary_expr parse_sum_operator
    (eitherP product_expression (eitherP dot_expression parse_expression))

/-- Math reduction (src/parse/precedence.rs, `math_expression`). -/
def math_expression : ElemParser PExpr :=
  eitherP sum_expression product_expression

/-- Comparison-level reduction (src/parse/precedence.rs,
`compare_expression`). -/
def compare_expression : ElemParser PExpr :=
  do_binary_expr parse_compare_operator
    (eitherP math_expression (eitherP dot_expression parse_expression))

/-- Top-level reduction of an operand list (src/parse/precedence.rs,
`binary_expression`). -/
def binary_expression : ElemParser PExpr :=
  eitherP compare_expression
    (eitherP math_expression (eitherP dot_expression parse_expression))

/-- The reduction stage of `op_expression` (src/parse/precedence.rs lines
394-416): run `binary_expression` on the collected operand list and, on
`Complete(_, expr)`, return `expr` while DISCARDING whatever elements of the
operand list were left unconsumed. -/
def op_expression_reduce (oplist : List Element) : Option PExpr :=
  match binary_expression oplist with
  | .Complete _ expr => some expr
  | .Fail => none
  | .Abort => none

end Prec

/-!
### Specification-side descriptions used in theorem statements
-/

/-- The dropping condition of the `filter` list operation, read off the two
`continue` branches of `Builder::eval_list_op`: an element is dropped exactly
when the projected field is `Empty` or `Boolean(false)`. -/
def drops (v : Val) : Bool :=
  match v with
  | .Empty => true
  | .Boolean false => true
  | _ => false

/-- The working map `copy_from_base` builds from a duplicate-free base tuple:
the base fields numbered consecutively from `count`. -/
def numberFrom (count : Int) : List (PositionedItem String × Val) →
    List (PositionedItem String × (Int × Val))
  | [] => []
  | (k, v) :: rest => (k, (count, v)) :: numberFrom (count + 1) rest

/-- Boolean membership in a list of field names. -/
def hasKey (keys : List String) (k : String) : Bool :=
  keys.any fun s => s == k

/-- One step of collecting the override names that create new fields: a name
already present in the base or already collected is skipped, any other name is
appended. -/
def add_new_key (baseKeys : List String) (acc : List String) (k : String) : List String :=
  if hasKey baseKeys k || hasKey acc k then acc else acc ++ [k]

/-- The names of the fields a `Copy`'s overrides add to the base, in override
declaration order (first occurrences only). -/
def new_keys (baseKeys ovrKeys : List String) : List String :=
  ovrKeys.foldl (add_new_key baseKeys) []

/-!
### Sanity checks and theorems

Everything from here on is proved about the definitions above.
-/

example : valEqual (.Int 1) (.Int 1) = true := rfl

example : valEqual (.List [.Int 1, .Str "a"]) (.List [.Int 1, .Str "a"]) = true := rfl

example :
    eval_expr 9 (testBuilder [(pn "x" (mkPos 1 1 0), .Int 41)])
      (.Binary .Add (symExpr "x" (mkPos 2 1 10)) (intExpr 1 (mkPos 2 5 14)) (mkPos 2 1 10)) =
    .ok (testBuilder [(pn "x" (mkPos 1 1 0), .Int 41)], .Int 42) := rfl

example :
    eval_expr 9 (testBuilder [(pn "t" (mkPos 1 1 0),
        .Tuple [(pn "a" (mkPos 1 5 4), .Int 1), (pn "b" (mkPos 1 12 11), .Int 2)])])
      (.Copy (symSelector "t" (mkPos 2 1 20))
        [(bw "b" (mkPos 2 3 22), intExpr 3 (mkPos 2 7 26)),
         (bw "c" (mkPos 2 10 29), intExpr 4 (mkPos 2 14 33))]
        (mkPos 2 1 20)) =
    .ok ({ testBuilder [(pn "t" (mkPos 1 1 0),
        .Tuple [(pn "a" (mkPos 1 5 4), .Int 1), (pn "b" (mkPos 1 12 11), .Int 2)])]
          with stack := some [] },
      .Tuple [(pn "a" (mkPos 1 5 4), .Int 1), (pn "b" (mkPos 1 12 11), .Int 3),
        (pn "c" (mkPos 2 10 29), .Int 4)]) := rfl

example :
    eval_expr 9 (testBuilder [(pn "keep" (mkPos 1 5 4), .Macro keepMacro)])
      (.ListOp .Filter (symSelector "keep" (mkPos 2 10 40)) "v"
        (.Simple (.List [intExpr 0 (mkPos 2 18 48), intExpr 1 (mkPos 2 20 50),
          intExpr 2 (mkPos 2 22 52)] (mkPos 2 17 47)))
        (mkPos 2 1 31)) =
    .ok (testBuilder [(pn "keep" (mkPos 1 5 4), .Macro keepMacro)],
      .List [.Int 0, .Int 1, .Int 2]) := rfl

example :
    eval_expr 9 (testBuilder
        [(pn "a" (mkPos 1 1 0), .Tuple [(pn "x" (mkPos 1 10 9), .Int 1)]),
         (pn "b" (mkPos 2 1 20), .Tuple [(pn "y" (mkPos 2 10 29), .Int 2)])])
      (.Copy (symSelector "a" (mkPos 3 1 40))
        [(bw "o" (mkPos 3 3 42),
          .Copy (symSelector "b" (mkPos 3 7 46))
            [(bw "z" (mkPos 3 9 48), symExpr "self" (mkPos 3 13 52))]
            (mkPos 3 7 46))]
        (mkPos 3 1 40)) =
    .ok ({ testBuilder
        [(pn "a" (mkPos 1 1 0), .Tuple [(pn "x" (mkPos 1 10 9), .Int 1)]),
         (pn "b" (mkPos 2 1 20), .Tuple [(pn "y" (mkPos 2 10 29), .Int 2)])]
          with stack := some [] },
      .Tuple [(pn "x" (mkPos 1 10 9), .Int 1),
        (pn "o" (mkPos 3 3 42),
          .Tuple [(pn "y" (mkPos 2 10 29), .Int 2),
            (pn "z" (mkPos 3 9 48), .Tuple [(pn "x" (mkPos 1 10 9), .Int 1)])])]) := rfl

/-! Facts about the working map of `copy_from_base`. -/

lemma mFind_cons (k0 : PositionedItem String) (iv : Int × Val)
    (m : List (PositionedItem String × (Int × Val))) (k : PositionedItem String) :
    mFind ((k0, iv) :: m) k = if k0.val == k.val then some iv else mFind m k := by
  by_cases h : k0.val == k.val <;> simp [mFind, List.find?_cons, h]

lemma mFind_eq_none_iff (m : List (PositionedItem String × (Int × Val)))
    (k : PositionedItem String) :
    mFind m k = none ↔ hasKey (m.map fun p => p.1.val) k.val = false := by
  induction m with
  | nil => simp [mFind, hasKey]
  | cons hd tl ih =>
      obtain ⟨k0, iv⟩ := hd
      by_cases h : k0.val == k.val
      · simp [mFind_cons, h, hasKey]
      · rw [mFind_cons, if_neg h]
        simpa [hasKey, h] using ih

lemma mFind_isSome_of_hasKey (m : List (PositionedItem String × (Int × Val)))
    (k : PositionedItem String) (h : hasKey (m.map fun p => p.1.val) k.val = true) :
    (mFind m k).isSome = true := by
  cases hf : mFind m k with
  | none => rw [mFind_eq_none_iff] at hf; rw [hf] at h; cases h
  | some iv => rfl

lemma mFind_append_eq_none (m₁ m₂ : List (PositionedItem String × (Int × Val)))
    (k : PositionedItem String) :
    mFind (m₁ ++ m₂) k = none ↔ mFind m₁ k = none ∧ mFind m₂ k = none := by
  induction m₁ with
  | nil => simp [mFind]
  | cons hd tl ih =>
      obtain ⟨k0, iv⟩ := hd
      by_cases h : k0.val == k.val <;> simp [mFind_cons, h, ih]

lemma mUpdate_keys (m : List (PositionedItem String × (Int × Val)))
    (k : PositionedItem String) (nv : Int × Val) :
    (mUpdate m k nv).map (fun p => p.1.val) = m.map fun p => p.1.val := by
  induction m with
  | nil => rfl
  | cons hd tl ih =>
      obtain ⟨k0, iv⟩ := hd
      by_cases h : k0.val == k.val <;> simp [mUpdate, h, ih]

lemma mUpdate_idxs (m : List (PositionedItem String × (Int × Val)))
    (k : PositionedItem String) (idx : Int) (w : Val) (v : Val)
    (h : mFind m k = some (idx, w)) :
    (mUpdate m k (idx, v)).map (fun p => p.2.1) = m.map fun p => p.2.1 := by
  induction m with
  | nil => simp [mFind] at h
  | cons hd tl ih =>
      obtain ⟨k0, iv⟩ := hd
      by_cases hk : k0.val == k.val
      · rw [mFind_cons, if_pos hk] at h
        obtain rfl : iv = (idx, w) := by simpa using h
        simp [mUpdate, hk]
      · rw [mFind_cons, if_neg hk] at h
        simp [mUpdate, hk, ih h]

/-! Facts about `numberFrom` and `build_base_map`. -/

lemma numberFrom_keys (c : Int) (src : List (PositionedItem String × Val)) :
    (numberFrom c src).map (fun p => p.1.val) = src.map fun p => p.1.val := by
  induction src generalizing c with
  | nil => rfl
  | cons hd tl ih => obtain ⟨k, v⟩ := hd; simp [numberFrom, ih]

lemma numberFrom_idx_bounds (c : Int) (src : List (PositionedItem String × Val)) :
    ∀ i ∈ (numberFrom c src).map (fun p => p.2.1), c ≤ i ∧ i < c + src.length := by
  induction src generalizing c with
  | nil => simp [numberFrom]
  | cons hd tl ih =>
      obtain ⟨k, v⟩ := hd
      intro i hi
      simp only [numberFrom, List.map_cons, List.mem_cons] at hi
      rcases hi with rfl | hi
      · constructor
        · exact le_refl _
        · have : (0 : Int) < (tl.length : Int) + 1 := by positivity
          simp only [List.length_cons]
          push_cast
          omega
      · have := ih (c + 1) i (by simpa using hi)
        simp only [List.length_cons]
        push_cast at this ⊢
        omega

lemma numberFrom_chain (c : Int) (src : List (PositionedItem String × Val)) :
    List.Chain' (· < ·) ((numberFrom c src).map fun p => p.2.1) := by
  induction src generalizing c with
  | nil => simp [numberFrom]
  | cons hd tl ih =>
      obtain ⟨k, v⟩ := hd
      simp only [numberFrom, List.map_cons]
      rw [List.chain'_cons']
      refine ⟨?_, ih (c + 1)⟩
      intro y hy
      have hmem : y ∈ (numberFrom (c + 1) tl).map fun p => p.2.1 :=
        List.mem_of_mem_head? hy
      have := numberFrom_idx_bounds (c + 1) tl y hmem
      omega

lemma build_base_map_ok_elim (src : List (PositionedItem String × Val)) :
    ∀ m count m' count', build_base_map m count src = .ok (m', count') →
      m' = m ++ numberFrom count src ∧ count' = count + src.length := by
  induction src with
  | nil =>
      intro m count m' count' h
      simp only [build_base_map] at h
      obtain ⟨rfl, rfl⟩ : m = m' ∧ count = count' := by
        constructor <;> cases h <;> rfl
      simp [numberFrom]
  | cons hd tl ih =>
      intro m count m' count' h
      obtain ⟨k, v⟩ := hd
      simp only [build_base_map] at h
      by_cases hf : (mFind m k).isSome
      · rw [if_pos hf] at h; cases h
      · rw [if_neg hf] at h
        obtain ⟨h1, h2⟩ := ih _ _ _ _ h
        constructor
        · rw [h1]; simp [numberFrom]
        · rw [h2]; simp only [List.length_cons]; push_cast; omega

lemma build_base_map_append (xs ys : List (PositionedItem String × Val)) :
    ∀ m count, build_base_map m count (xs ++ ys) =
      match build_base_map m count xs with
      | .ok (m', count') => build_base_map m' count' ys
      | .error e => .error e := by
  induction xs with
  | nil => intro m count; simp [build_base_map]
  | cons hd tl ih =>
      intro m count
      obtain ⟨k, v⟩ := hd
      simp only [List.cons_append, build_base_map]
      by_cases hf : (mFind m k).isSome
      · rw [if_pos hf, if_pos hf]
      · rw [if_neg hf, if_neg hf, List.append_eq, ih]

lemma build_base_map_ok_of_fresh (src : List (PositionedItem String × Val)) :
    ∀ m count, (∀ p ∈ src, mFind m p.1 = none) →
      (src.map fun p => p.1.val).Nodup →
      build_base_map m count src = .ok (m ++ numberFrom count src, count + src.length) := by
  induction src with
  | nil => intro m count _ _; simp [build_base_map, numberFrom]
  | cons hd tl ih =>
      intro m count hfresh hnodup
      obtain ⟨k, v⟩ := hd
      have hk : mFind m k = none := hfresh (k, v) (List.mem_cons_self _ _)
      simp only [build_base_map, hk, Option.isSome_none, Bool.false_eq_true, if_false]
      simp only [List.map_cons, List.nodup_cons] at hnodup
      have htl : ∀ p ∈ tl, mFind (m ++ [(k, (count, v))]) p.1 = none := by
        intro p hp
        rw [mFind_append_eq_none]
        refine ⟨hfresh p (List.mem_cons_of_mem _ hp), ?_⟩
        rw [mFind_cons]
        have hne : ¬(k.val == p.1.val) := by
          intro hb
          exact hnodup.1 (beq_iff_eq.mp hb ▸ List.mem_map_of_mem (fun q => q.1.val) hp)
        simp [mFind, hne]
      rw [ih _ _ htl hnodup.2]
      simp only [numberFrom, List.append_assoc, List.singleton_append, List.length_cons]
      have harith : count + 1 + (tl.length : Int) = count + ((tl.length : Int) + 1) := by ring
      push_cast
      rw [harith]

/-! Reduction lemmas for `Except` binds produced by the do-notation. -/

lemma exc_bind_ok {ε α β : Type} (a : α) (f : α → Except ε β) :
    (Except.ok a : Except ε α) >>= f = f a := rfl

lemma exc_bind_err {ε α β : Type} (e : ε) (f : α → Except ε β) :
    (Except.error e : Except ε α) >>= f = .error e := rfl

/-! Sortedness of the working map and identity of the final sort. -/

lemma chain_append_singleton (l : List Int) (x : Int)
    (hc : List.Chain' (· < ·) l) (hb : ∀ i ∈ l, i < x) :
    List.Chain' (· < ·) (l ++ [x]) := by
  rw [List.chain'_append]
  refine ⟨hc, List.chain'_singleton x, ?_⟩
  intro a ha y hy
  have hmem : a ∈ l := List.mem_of_mem_getLast? ha
  have hxy : x = y := by simpa using hy
  subst hxy
  exact hb a hmem

lemma insert_by_index_of_lt_head (x : PositionedItem String × (Int × Val))
    (xs : List (PositionedItem String × (Int × Val)))
    (h : ∀ y ∈ xs.head?, x.2.1 < y.2.1) :
    insert_by_index x xs = x :: xs := by
  cases xs with
  | nil => rfl
  | cons y ys =>
      have hlt : x.2.1 < y.2.1 := h y rfl
      simp [insert_by_index, le_of_lt hlt]

lemma sort_by_index_eq_self (m : List (PositionedItem String × (Int × Val)))
    (hc : List.Chain' (· < ·) (m.map fun p => p.2.1)) :
    sort_by_index m = m := by
  induction m with
  | nil => rfl
  | cons x xs ih =>
      simp only [List.map_cons, List.chain'_cons'] at hc
      have hs : sort_by_index xs = xs := ih hc.2
      have : sort_by_index (x :: xs) = insert_by_index x (sort_by_index xs) := rfl
      rw [this, hs]
      refine insert_by_index_of_lt_head x xs ?_
      intro y hy
      refine hc.1 y.2.1 ?_
      cases xs with
      | nil => simp at hy
      | cons z zs =>
          have hzy : z = y := by simpa using hy
          subst hzy
          rfl

/-! The invariant carried through the override loop of `copy_from_base`. -/

lemma copy_overrides_loop_inv (evalE : EvalFn) (baseKeys : List String) :
    ∀ (ovr : List (Token × Expression)) (b : Builder)
      (m : List (PositionedItem String × (Int × Val))) (count : Int)
      (acc : List String) (b' : Builder)
      (m' : List (PositionedItem String × (Int × Val))) (count' : Int),
      copy_overrides_loop evalE b m count ovr = .ok (b', m', count') →
      List.Chain' (· < ·) (m.map fun p => p.2.1) →
      (∀ i ∈ m.map fun p => p.2.1, i < count) →
      m.map (fun p => p.1.val) = baseKeys ++ acc →
      (m'.map fun p => p.1.val) =
          baseKeys ++ (ovr.map fun p => p.1.fragment).foldl (add_new_key baseKeys) acc
        ∧ List.Chain' (· < ·) (m'.map fun p => p.2.1) := by
  intro ovr
  induction ovr with
  | nil =>
      intro b m count acc b' m' count' h hc hb hk
      simp only [copy_overrides_loop] at h
      cases h
      exact ⟨by simpa using hk, hc⟩
  | cons hd tl ih =>
      intro b m count acc b' m' count' h hc hb hk
      obtain ⟨key, vexpr⟩ := hd
      simp only [copy_overrides_loop] at h
      cases hres : evalE b vexpr with
      | error e => rw [hres] at h; exact Except.noConfusion h
      | ok pr =>
          obtain ⟨b1, expr_result⟩ := pr
          simp only [hres] at h
          cases hfind : mFind m key.toPItem with
          | none =>
              simp only [hfind] at h
              have hfree : hasKey (m.map fun p => p.1.val) key.fragment = false := by
                have := (mFind_eq_none_iff m key.toPItem).mp hfind
                simpa [Token.toPItem] using this
              rw [hk] at hfree
              have hsplit : hasKey baseKeys key.fragment = false ∧
                  hasKey acc key.fragment = false := by
                constructor <;>
                  · rw [hasKey] at hfree ⊢
                    rw [List.any_append] at hfree
                    simp only [Bool.or_eq_false_iff] at hfree
                    first
                      | exact hfree.1
                      | exact hfree.2
              have hstep : add_new_key baseKeys acc key.fragment = acc ++ [key.fragment] := by
                rw [add_new_key, hsplit.1, hsplit.2]
                rfl
              have ihres := ih b1 (m ++ [(key.toPItem, (count, expr_result))]) (count + 1)
                (acc ++ [key.fragment]) b' m' count' h
                (by
                  rw [List.map_append]
                  exact chain_append_singleton _ _ hc (by simpa using hb))
                (by
                  intro i hi
                  rw [List.map_append] at hi
                  rcases List.mem_append.mp hi with hi | hi
                  · exact lt_trans (hb i hi) (by omega)
                  · have : i = count := by simpa [Token.toPItem] using hi
                    omega)
                (by
                  rw [List.map_append, hk]
                  simp [Token.toPItem])
              refine ⟨?_, ihres.2⟩
              rw [ihres.1]
              simp only [List.map_cons, List.foldl_cons, hstep]
          | some iv =>
              obtain ⟨idx, src_val⟩ := iv
              simp only [hfind] at h
              by_cases hty : (src_val.type_equal expr_result || src_val.is_empty ||
                  expr_result.is_empty) = true
              · rw [if_pos hty] at h
                have hsomekey : hasKey (m.map fun p => p.1.val) key.fragment = true := by
                  by_contra hcon
                  have : mFind m key.toPItem = none := by
                    rw [mFind_eq_none_iff]
                    simpa [Token.toPItem] using Bool.eq_false_iff.mpr hcon
                  rw [this] at hfind
                  exact Option.noConfusion hfind
                have hstep : add_new_key baseKeys acc key.fragment = acc := by
                  rw [hk, hasKey, List.any_append] at hsomekey
                  simp only [add_new_key, hasKey]
                  rw [if_pos hsomekey]
                have ihres := ih b1 (mUpdate m key.toPItem (idx, expr_result)) count acc
                  b' m' count' h
                  (by rw [mUpdate_idxs m key.toPItem idx src_val expr_result hfind]; exact hc)
                  (by rw [mUpdate_idxs m key.toPItem idx src_val expr_result hfind]; exact hb)
                  (by rw [mUpdate_keys]; exact hk)
                refine ⟨?_, ihres.2⟩
                rw [ihres.1]
                simp only [List.map_cons, List.foldl_cons, hstep]
              · rw [if_neg hty] at h
                exact Except.noConfusion h

lemma mFind_numberFrom (src : List (PositionedItem String × Val)) :
    ∀ (c : Int) (k : PositionedItem String) (kb : PositionedItem String) (w : Val),
      src.find? (fun p => p.1.val == k.val) = some (kb, w) →
      ∃ i : Int, mFind (numberFrom c src) k = some (i, w) := by
  induction src with
  | nil => intro c k kb w h; simp [List.find?] at h
  | cons hd tl ih =>
      intro c k kb w h
      obtain ⟨k0, v0⟩ := hd
      cases h0 : (k0.val == k.val) with
      | true =>
          simp only [List.find?, h0] at h
          obtain ⟨rfl, rfl⟩ : k0 = kb ∧ v0 = w := by
            constructor <;> cases h <;> rfl
          refine ⟨c, ?_⟩
          simp [numberFrom, mFind_cons, h0]
      | false =>
          simp only [List.find?, h0] at h
          obtain ⟨i, hi⟩ := ih (c + 1) k kb w h
          refine ⟨i, ?_⟩
          simp [numberFrom, mFind_cons, h0, hi]

lemma eval_fields_keys (evalE : EvalFn) :
    ∀ (fields : List (Token × Expression)) (b b' : Builder)
      (fs : List (PositionedItem String × Val)),
      eval_fields evalE b fields = .ok (b', fs) →
      fs.map (fun p => p.1.val) = fields.map fun p => p.1.fragment := by
  intro fields
  induction fields with
  | nil =>
      intro b b' fs h
      simp only [eval_fields] at h
      cases h
      rfl
  | cons hd tl ih =>
      intro b b' fs h
      obtain ⟨name, expr⟩ := hd
      simp only [eval_fields] at h
      cases hres : evalE b expr with
      | error e => rw [hres] at h; exact Except.noConfusion h
      | ok pr =>
          obtain ⟨b1, v⟩ := pr
          simp only [hres] at h
          cases hrest : eval_fields evalE b1 tl with
          | error e => rw [hrest] at h; exact Except.noConfusion h
          | ok pr2 =>
              obtain ⟨b2, vs⟩ := pr2
              simp only [hrest] at h
              cases h
              simp only [List.map_cons]
              rw [ih _ _ _ hrest]
              rfl

/--
Claim C1: for a Copy of a base tuple, overwriting an existing field with a
value whose reduced-value kind differs from the original field's kind, with
neither side `Empty`, fails with a `TypeFail` error positioned at the
override's name token; an overwrite with an equal kind, or with `Empty` on
either side, succeeds.  Stated over `copy_from_base` for an arbitrary
duplicate-free base tuple and a single override whose expression evaluates to
`v`; `w` is the base value of the overwritten field.
-/
theorem claimC1_copy_overwrite_type_check (fuel : Nat) (b b' : Builder)
    (src : List (PositionedItem String × Val)) (k : Token) (e : Expression)
    (kb : PositionedItem String) (w v : Val)
    (hnodup : (src.map fun p => p.1.val).Nodup)
    (hbase : src.find? (fun p => p.1.val == k.fragment) = some (kb, w))
    (heval : eval_expr fuel b e = .ok (b', v)) :
    ((w.type_equal v || w.is_empty || v.is_empty) = false →
      copy_from_base (eval_expr fuel) b src [(k, e)] =
        .error (.build ⟨"Expected type " ++ w.type_name ++ " for field " ++ k.fragment ++
          " but got " ++ v.type_name, .TypeFail, k.pos⟩)) ∧
    ((w.type_equal v || w.is_empty || v.is_empty) = true →
      ∃ (bf : Builder) (fields : List (PositionedItem String × Val)),
        copy_from_base (eval_expr fuel) b src [(k, e)] = .ok (bf, .Tuple fields)) := by
  have hbm := build_base_map_ok_of_fresh src [] 0 (fun p _ => rfl) hnodup
  rw [List.nil_append] at hbm
  obtain ⟨i, hi⟩ := mFind_numberFrom src 0 k.toPItem kb w (by
    simpa [Token.toPItem] using hbase)
  constructor
  · intro hcond
    simp only [copy_from_base, hbm, copy_overrides_loop, heval, hi]
    rw [if_neg (by rw [hcond]; exact Bool.false_ne_true)]
  · intro hcond
    refine ⟨b'.pop_val_b,
      (sort_by_index (mUpdate (numberFrom 0 src) k.toPItem (i, v))).map fun p => (p.1, p.2.2),
      ?_⟩
    simp only [copy_from_base, hbm, copy_overrides_loop, heval, hi]
    rw [if_pos hcond]

/-- Witness for C1 at a concrete input: base `{ a = 1 }`, override `a = "s"`
(Integer overwritten by String) fails with `TypeFail` at the override's name
token, while override `a = 2` (same kind) succeeds. -/
theorem claimC1_copy_overwrite_type_check_witness :
    (copy_from_base (eval_expr 9) (testBuilder []) [(pn "a" (mkPos 1 5 4), .Int 1)]
        [(bw "a" (mkPos 2 3 12), strExpr "s" (mkPos 2 7 16))] =
      .error (.build ⟨"Expected type Integer for field a but got String",
        .TypeFail, mkPos 2 3 12⟩)) ∧
    (∃ (bf : Builder) (fields : List (PositionedItem String × Val)),
      copy_from_base (eval_expr 9) (testBuilder []) [(pn "a" (mkPos 1 5 4), .Int 1)]
          [(bw "a" (mkPos 2 3 12), intExpr 2 (mkPos 2 7 16))] = .ok (bf, .Tuple fields)) := by
  constructor
  · exact (claimC1_copy_overwrite_type_check 9 (testBuilder []) (testBuilder [])
      [(pn "a" (mkPos 1 5 4), .Int 1)] (bw "a" (mkPos 2 3 12))
      (strExpr "s" (mkPos 2 7 16)) (pn "a" (mkPos 1 5 4)) (.Int 1) (.Str "s")
      (by decide) rfl rfl).1 rfl
  · exact (claimC1_copy_overwrite_type_check 9 (testBuilder []) (testBuilder [])
      [(pn "a" (mkPos 1 5 4), .Int 1)] (bw "a" (mkPos 2 3 12))
      (intExpr 2 (mkPos 2 7 16)) (pn "a" (mkPos 1 5 4)) (.Int 1) (.Int 2)
      (by decide) rfl rfl).2 rfl

/--
Claim C2: whenever a Copy of a base tuple succeeds, the resulting tuple's
field order is the base tuple's original field order (overwritten fields keep
their position), with fields newly added by overrides appended at the end in
override declaration order (first occurrences).
-/
theorem claimC2_copy_field_order (fuel : Nat) (b : Builder)
    (src : List (PositionedItem String × Val)) (overrides : List (Token × Expression))
    (b2 : Builder) (fields : List (PositionedItem String × Val))
    (h : copy_from_base (eval_expr fuel) b src overrides = .ok (b2, .Tuple fields)) :
    fields.map (fun p => p.1.val) =
      src.map (fun p => p.1.val) ++
        new_keys (src.map fun p => p.1.val) (overrides.map fun p => p.1.fragment) := by
  cases hp1 : build_base_map [] 0 src with
  | error e => simp only [copy_from_base, hp1] at h; exact Except.noConfusion h
  | ok pr =>
      obtain ⟨m0, c0⟩ := pr
      obtain ⟨hm0, hc0⟩ := build_base_map_ok_elim src [] 0 m0 c0 hp1
      rw [List.nil_append] at hm0
      subst hm0
      cases hp2 : copy_overrides_loop (eval_expr fuel) b (numberFrom 0 src) c0 overrides with
      | error e => simp only [copy_from_base, hp1, hp2] at h; exact Except.noConfusion h
      | ok tr =>
          obtain ⟨b1, m1, c1⟩ := tr
          simp only [copy_from_base, hp1, hp2, Except.ok.injEq, Prod.mk.injEq,
            Val.Tuple.injEq] at h
          obtain ⟨-, hf⟩ := h
          have hinv := copy_overrides_loop_inv (eval_expr fuel) (src.map fun p => p.1.val)
            overrides b (numberFrom 0 src) c0 [] b1 m1 c1 hp2
            (numberFrom_chain 0 src)
            (by
              intro idx hidx
              have := numberFrom_idx_bounds 0 src idx hidx
              rw [hc0]
              omega)
            (by rw [numberFrom_keys, List.append_nil])
          have hsort : sort_by_index m1 = m1 := sort_by_index_eq_self m1 hinv.2
          rw [← hf, hsort, List.map_map]
          rw [show ((fun p : PositionedItem String × Val => p.1.val) ∘
              fun p : PositionedItem String × (Int × Val) => (p.1, p.2.2)) =
              fun p : PositionedItem String × (Int × Val) => p.1.val from rfl]
          exact hinv.1

/-- Witness for C2 at the spec's concrete example: copying `{ a = 1, b = 2 }`
with overrides `b = 3, c = 4` yields field order `a, b, c` — and the full
result is `Tuple[("a",1),("b",3),("c",4)]`. -/
theorem claimC2_copy_field_order_witness :
    (([(pn "a" (mkPos 1 5 4), Val.Int 1), (pn "b" (mkPos 1 12 11), Val.Int 3),
        (pn "c" (mkPos 2 10 29), Val.Int 4)] : List (PositionedItem String × Val)).map
          (fun p => p.1.val) =
      ([(pn "a" (mkPos 1 5 4), Val.Int 1), (pn "b" (mkPos 1 12 11), Val.Int 2)] :
          List (PositionedItem String × Val)).map (fun p => p.1.val) ++
        new_keys ["a", "b"] ["b", "c"]) ∧
    (copy_from_base (eval_expr 9)
        ((testBuilder [(pn "t" (mkPos 1 1 0),
          .Tuple [(pn "a" (mkPos 1 5 4), .Int 1), (pn "b" (mkPos 1 12 11), .Int 2)])]).push_val
          (.Tuple [(pn "a" (mkPos 1 5 4), .Int 1), (pn "b" (mkPos 1 12 11), .Int 2)]))
        [(pn "a" (mkPos 1 5 4), .Int 1), (pn "b" (mkPos 1 12 11), .Int 2)]
        [(bw "b" (mkPos 2 3 22), intExpr 3 (mkPos 2 7 26)),
         (bw "c" (mkPos 2 10 29), intExpr 4 (mkPos 2 14 33))] =
      .ok ({ testBuilder [(pn "t" (mkPos 1 1 0),
          .Tuple [(pn "a" (mkPos 1 5 4), .Int 1), (pn "b" (mkPos 1 12 11), .Int 2)])]
            with stack := some [] },
        .Tuple [(pn "a" (mkPos 1 5 4), .Int 1), (pn "b" (mkPos 1 12 11), .Int 3),
          (pn "c" (mkPos 2 10 29), .Int 4)])) := by
  constructor
  · exact claimC2_copy_field_order 9
      ((testBuilder [(pn "t" (mkPos 1 1 0),
        .Tuple [(pn "a" (mkPos 1 5 4), .Int 1), (pn "b" (mkPos 1 12 11), .Int 2)])]).push_val
        (.Tuple [(pn "a" (mkPos 1 5 4), .Int 1), (pn "b" (mkPos 1 12 11), .Int 2)]))
      [(pn "a" (mkPos 1 5 4), .Int 1), (pn "b" (mkPos 1 12 11), .Int 2)]
      [(bw "b" (mkPos 2 3 22), intExpr 3 (mkPos 2 7 26)),
       (bw "c" (mkPos 2 10 29), intExpr 4 (mkPos 2 14 33))]
      _ _ rfl
  · rfl

/-- Counterexample to claim C8: the tuple literal `{ a = 1, a = 2 }`, whose two
fields share a name, is NOT rejected — `tuple_to_val` evaluates it successfully
to a tuple carrying both fields. -/
theorem claimC8_counterexample :
    tuple_to_val (eval_expr 9) (testBuilder [])
      [(bw "a" (mkPos 1 3 2), intExpr 1 (mkPos 1 7 6)),
       (bw "a" (mkPos 1 10 9), intExpr 2 (mkPos 1 14 13))] =
    .ok (testBuilder [],
      .Tuple [(pn "a" (mkPos 1 3 2), .Int 1), (pn "a" (mkPos 1 10 9), .Int 2)]) := rfl

/--
Claim C8 (amended): tuple literals evaluate to a tuple preserving insertion
order of the written fields — including literals with duplicate field names,
which are accepted as-is; the duplicate-field rejection happens only when a
tuple containing a duplicated name is used as the base of a Copy, which fails
with `TypeFail` at the duplicated field's position.
-/
theorem claimC8_tuple_literal_duplicates :
    (∀ (fuel : Nat) (b : Builder) (fields : List (Token × Expression)) (b' : Builder)
        (fs : List (PositionedItem String × Val)),
      eval_fields (eval_expr fuel) b fields = .ok (b', fs) →
      fs.map (fun p => p.1.val) = fields.map fun p => p.1.fragment) ∧
    (∀ (fuel : Nat) (b : Builder) (s1 : List (PositionedItem String × Val))
        (k : PositionedItem String) (v : Val) (s2 : List (PositionedItem String × Val))
        (ovr : List (Token × Expression)),
      (s1.map (fun p => p.1.val)).Nodup →
      hasKey (s1.map fun p => p.1.val) k.val = true →
      copy_from_base (eval_expr fuel) b (s1 ++ (k, v) :: s2) ovr =
        .error (.build ⟨"Duplicate field: " ++ k.val ++ " in tuple", .TypeFail, k.pos⟩)) := by
  constructor
  · intro fuel b fields b' fs h
    exact eval_fields_keys (eval_expr fuel) fields b b' fs h
  · intro fuel b s1 k v s2 ovr hnodup hdup
    have hbm := build_base_map_ok_of_fresh s1 [] 0 (fun p _ => rfl) hnodup
    rw [List.nil_append] at hbm
    have happ := build_base_map_append s1 ((k, v) :: s2) [] 0
    rw [hbm] at happ
    have hsome : (mFind (numberFrom 0 s1) k).isSome = true := by
      refine mFind_isSome_of_hasKey _ _ ?_
      rw [numberFrom_keys]
      exact hdup
    simp only [build_base_map, hsome, if_true] at happ
    simp only [copy_from_base, happ]

/-- Witness for C8 at concrete inputs: the literal `{ a = 1, b = 2 }` evaluates
with field order `a, b`, and a Copy whose base tuple is `{ a = 1, a = 2 }`
fails with the duplicate-field `TypeFail` at the second `a`. -/
theorem claimC8_tuple_literal_duplicates_witness :
    (([(pn "a" (mkPos 1 3 2), Val.Int 1), (pn "b" (mkPos 1 10 9), Val.Int 2)] :
        List (PositionedItem String × Val)).map (fun p => p.1.val) =
      ([(bw "a" (mkPos 1 3 2), intExpr 1 (mkPos 1 7 6)),
        (bw "b" (mkPos 1 10 9), intExpr 2 (mkPos 1 14 13))] :
          List (Token × Expression)).map fun p => p.1.fragment) ∧
    (copy_from_base (eval_expr 9) (testBuilder [])
        ([(pn "a" (mkPos 1 3 2), Val.Int 1)] ++ (pn "a" (mkPos 1 10 9), Val.Int 2) :: [])
        [] =
      .error (.build ⟨"Duplicate field: a in tuple", .TypeFail, mkPos 1 10 9⟩)) := by
  constructor
  · exact claimC8_tuple_literal_duplicates.1 9 (testBuilder [])
      [(bw "a" (mkPos 1 3 2), intExpr 1 (mkPos 1 7 6)),
       (bw "b" (mkPos 1 10 9), intExpr 2 (mkPos 1 14 13))]
      (testBuilder [])
      [(pn "a" (mkPos 1 3 2), Val.Int 1), (pn "b" (mkPos 1 10 9), Val.Int 2)] rfl
  · exact claimC8_tuple_literal_duplicates.2 9 (testBuilder [])
      [(pn "a" (mkPos 1 3 2), Val.Int 1)] (pn "a" (mkPos 1 10 9)) (Val.Int 2) [] []
      (by decide) rfl

/-! Characterisation of the list-operation loop. -/

lemma list_op_loop_spec (evalE : EvalFn) (file : String) (env : Val)
    (macdef : MacroDefT) (field : String) :
    ∀ (l : List Val) (flds : Val → List (PositionedItem String × Val)),
      (∀ item ∈ l, macro_def_eval evalE file env macdef [item] = .ok (flds item)) →
      (list_op_loop evalE file env macdef .Map field l =
        .ok (l.filterMap fun item => find_in_fieldlist field (flds item))) ∧
      (list_op_loop evalE file env macdef .Filter field l =
        .ok (l.filter fun item =>
          ((find_in_fieldlist field (flds item)).map fun v => !(drops v)).getD false)) := by
  intro l
  induction l with
  | nil => intro flds _; exact ⟨rfl, rfl⟩
  | cons x rest ih =>
      intro flds hmac
      have hx := hmac x (List.mem_cons_self x rest)
      have hrest := ih flds fun item hm => hmac item (List.mem_cons_of_mem x hm)
      constructor
      · simp only [list_op_loop, hx, hrest.1]
        cases hfx : find_in_fieldlist field (flds x) with
        | none => simp [List.filterMap_cons, hfx]
        | some v => simp [List.filterMap_cons, hfx]
      · simp only [list_op_loop, hx, hrest.2]
        cases hfx : find_in_fieldlist field (flds x) with
        | none => simp [List.filter_cons, hfx]
        | some v =>
            cases v with
            | Boolean bv => cases bv <;> simp [List.filter_cons, hfx, drops]
            | Empty => simp [List.filter_cons, hfx, drops]
            | Int i => simp [List.filter_cons, hfx, drops]
            | Float f => simp [List.filter_cons, hfx, drops]
            | Str str => simp [List.filter_cons, hfx, drops]
            | List elems => simp [List.filter_cons, hfx, drops]
            | Tuple fs => simp [List.filter_cons, hfx, drops]
            | Macro mm => simp [List.filter_cons, hfx, drops]
            | Env vars => simp [List.filter_cons, hfx, drops]

/--
Claim C3: a `filter` list operation keeps an element exactly when the value
projected from the named field of the macro's result tuple is neither `Empty`
nor `Boolean(false)`; in particular an `Int(0)` projection does not drop the
element.  Stated over `eval_list_op` for any target list, resolved macro and
per-element projections; the witness instantiates the spec's `[0,1,2]`
identity-macro example.
-/
theorem claimC3_filter_semantics (fuel : Nat) (b b1 b2 : Builder)
    (mac : SelectorDefT) (field : String) (target : Expression) (pos : Position)
    (l : List Val) (macdef : MacroDefT)
    (flds : Val → List (PositionedItem String × Val)) (proj : Val → Val)
    (htarget : eval_expr fuel b target = .ok (b1, .List l))
    (hmac : lookup_selector (eval_expr fuel) b1 mac = .ok (b2, .Macro macdef))
    (heval : ∀ item ∈ l, macro_def_eval (eval_expr fuel) b2.file b2.env macdef [item] =
      .ok (flds item))
    (hfind : ∀ item ∈ l, find_in_fieldlist field (flds item) = some (proj item)) :
    eval_list_op (eval_expr fuel) b .Filter mac field target pos =
      .ok (b2, .List (l.filter fun item => !(drops (proj item)))) := by
  have hloop := (list_op_loop_spec (eval_expr fuel) b2.file b2.env macdef field l flds heval).2
  have hpred : (l.filter fun item =>
      ((find_in_fieldlist field (flds item)).map fun v => !(drops v)).getD false) =
      l.filter fun item => !(drops (proj item)) := by
    apply List.filter_congr
    intro item hm
    rw [hfind item hm]
    rfl
  rw [hpred] at hloop
  simp only [eval_list_op, htarget, hmac, hloop]

/-- Witness for C3 at the spec's example: filtering `[0,1,2]` through
`macro(x) => { v = x }` on field `v` keeps all three elements, because the
`Int(0)` projection is neither `Empty` nor `Boolean(false)`. -/
theorem claimC3_filter_semantics_witness :
    eval_list_op (eval_expr 9) (testBuilder [(pn "keep" (mkPos 1 5 4), .Macro keepMacro)])
      .Filter (symSelector "keep" (mkPos 2 10 40)) "v"
      (.Simple (.List [intExpr 0 (mkPos 2 18 48), intExpr 1 (mkPos 2 20 50),
        intExpr 2 (mkPos 2 22 52)] (mkPos 2 17 47)))
      (mkPos 2 1 31) =
    .ok (testBuilder [(pn "keep" (mkPos 1 5 4), .Macro keepMacro)],
      .List [.Int 0, .Int 1, .Int 2]) := by
  have h := claimC3_filter_semantics 9
    (testBuilder [(pn "keep" (mkPos 1 5 4), .Macro keepMacro)])
    (testBuilder [(pn "keep" (mkPos 1 5 4), .Macro keepMacro)])
    (testBuilder [(pn "keep" (mkPos 1 5 4), .Macro keepMacro)])
    (symSelector "keep" (mkPos 2 10 40)) "v"
    (.Simple (.List [intExpr 0 (mkPos 2 18 48), intExpr 1 (mkPos 2 20 50),
      intExpr 2 (mkPos 2 22 52)] (mkPos 2 17 47)))
    (mkPos 2 1 31)
    [.Int 0, .Int 1, .Int 2] keepMacro
    (fun item => [(pn "v" (mkPos 1 25 24), item)]) (fun item => item)
    rfl rfl (fun item _ => rfl) (fun item _ => rfl)
  exact h.trans (by rfl)

/--
Claim C10: in a `map` or `filter` list operation, an element for which the
macro's result tuple lacks the named field contributes nothing to the output
(omitted from a `map`, dropped by a `filter`) and raises no error: the `map`
output is the per-element projections that exist, the `filter` output keeps an
element only when its projection exists and is neither `Empty` nor
`Boolean(false)`, and both evaluations succeed.
-/
theorem claimC10_missing_field (fuel : Nat) (b b1 b2 : Builder)
    (mac : SelectorDefT) (field : String) (target : Expression) (pos : Position)
    (l : List Val) (macdef : MacroDefT)
    (flds : Val → List (PositionedItem String × Val))
    (htarget : eval_expr fuel b target = .ok (b1, .List l))
    (hmac : lookup_selector (eval_expr fuel) b1 mac = .ok (b2, .Macro macdef))
    (heval : ∀ item ∈ l, macro_def_eval (eval_expr fuel) b2.file b2.env macdef [item] =
      .ok (flds item)) :
    (eval_list_op (eval_expr fuel) b .Map mac field target pos =
      .ok (b2, .List (l.filterMap fun item => find_in_fieldlist field (flds item)))) ∧
    (eval_list_op (eval_expr fuel) b .Filter mac field target pos =
      .ok (b2, .List (l.filter fun item =>
        ((find_in_fieldlist field (flds item)).map fun v => !(drops v)).getD false))) := by
  have hloop := list_op_loop_spec (eval_expr fuel) b2.file b2.env macdef field l flds heval
  constructor
  · simp only [eval_list_op, htarget, hmac, hloop.1]
  · simp only [eval_list_op, htarget, hmac, hloop.2]

/-- Witness for C10 at a concrete input: mapping and filtering `[1,2]` through
`macro(x) => { v = x }` but projecting the absent field `w` succeeds and
yields the empty list for both operations. -/
theorem claimC10_missing_field_witness :
    (eval_list_op (eval_expr 9) (testBuilder [(pn "keep" (mkPos 1 5 4), .Macro keepMacro)])
        .Map (symSelector "keep" (mkPos 2 10 40)) "w"
        (.Simple (.List [intExpr 1 (mkPos 2 18 48), intExpr 2 (mkPos 2 20 50)]
          (mkPos 2 17 47)))
        (mkPos 2 1 31) =
      .ok (testBuilder [(pn "keep" (mkPos 1 5 4), .Macro keepMacro)], .List [])) ∧
    (eval_list_op (eval_expr 9) (testBuilder [(pn "keep" (mkPos 1 5 4), .Macro keepMacro)])
        .Filter (symSelector "keep" (mkPos 2 10 40)) "w"
        (.Simple (.List [intExpr 1 (mkPos 2 18 48), intExpr 2 (mkPos 2 20 50)]
          (mkPos 2 17 47)))
        (mkPos 2 1 31) =
      .ok (testBuilder [(pn "keep" (mkPos 1 5 4), .Macro keepMacro)], .List [])) := by
  have h := claimC10_missing_field 9
    (testBuilder [(pn "keep" (mkPos 1 5 4), .Macro keepMacro)])
    (testBuilder [(pn "keep" (mkPos 1 5 4), .Macro keepMacro)])
    (testBuilder [(pn "keep" (mkPos 1 5 4), .Macro keepMacro)])
    (symSelector "keep" (mkPos 2 10 40)) "w"
    (.Simple (.List [intExpr 1 (mkPos 2 18 48), intExpr 2 (mkPos 2 20 50)]
      (mkPos 2 17 47)))
    (mkPos 2 1 31)
    [.Int 1, .Int 2] keepMacro
    (fun item => [(pn "v" (mkPos 1 25 24), item)])
    rfl rfl (fun item _ => rfl)
  exact ⟨h.1.trans (by rfl), h.2.trans (by rfl)⟩

/--
Claim C4 (code behaviour at the failing input): the operand list for
`1 - 2 - 3` does NOT reduce left-associatively to `((1 - 2) - 3)`.
`binary_expression` consumes only `1 - 2`, leaving `- 3` unconsumed, and the
reduction stage of `op_expression` returns `(1 - 2)` while discarding the
leftover operator and operand.
-/
theorem claimC4_precedence_chain :
    (Prec.binary_expression
        [.Expr (.Simple (⟨mkPos 1 1 0, 1⟩)), .Op .Sub,
         .Expr (.Simple (⟨mkPos 1 5 4, 2⟩)), .Op .Sub,
         .Expr (.Simple (⟨mkPos 1 9 8, 3⟩))] =
      .Complete [.Op .Sub, .Expr (.Simple (⟨mkPos 1 9 8, 3⟩))]
        (.Binary .Sub (.Simple (⟨mkPos 1 1 0, 1⟩)) (.Simple (⟨mkPos 1 5 4, 2⟩))
          (mkPos 1 1 0))) ∧
    (Prec.op_expression_reduce
        [.Expr (.Simple (⟨mkPos 1 1 0, 1⟩)), .Op .Sub,
         .Expr (.Simple (⟨mkPos 1 5 4, 2⟩)), .Op .Sub,
         .Expr (.Simple (⟨mkPos 1 9 8, 3⟩))] =
      some (.Binary .Sub (.Simple (⟨mkPos 1 1 0, 1⟩)) (.Simple (⟨mkPos 1 5 4, 2⟩))
        (mkPos 1 1 0))) ∧
    (some (Prec.PExpr.Binary .Sub (.Simple (⟨mkPos 1 1 0, 1⟩))
        (.Simple (⟨mkPos 1 5 4, 2⟩)) (mkPos 1 1 0)) ≠
      some (.Binary .Sub
        (.Binary .Sub (.Simple (⟨mkPos 1 1 0, 1⟩)) (.Simple (⟨mkPos 1 5 4, 2⟩))
          (mkPos 1 1 0))
        (.Simple (⟨mkPos 1 9 8, 3⟩)) (mkPos 1 1 0))) := by
  refine ⟨rfl, rfl, ?_⟩
  decide
/--
Claim C5 (code behaviour at the failing input): with `a = {x = 1}` and
`b = {y = 2}` in scope, evaluating `a{ o = b{ z = self } }` binds the inner
override `z` to the OUTER base tuple `{x = 1}`, not the inner base `{y = 2}`:
`lookup_sym` resolves `self` through `peek_val`, which reads `v.first()` — the
bottom of the self stack — so nested Copies see the outermost base.  The final
conjuncts exhibit the divergence: the value stored at `z` deep-equals the
outer base and does not deep-equal the inner base.
-/
theorem claimC5_self_nested_copy :
    (eval_expr 9 (testBuilder
        [(pn "a" (mkPos 1 1 0), .Tuple [(pn "x" (mkPos 1 10 9), .Int 1)]),
         (pn "b" (mkPos 2 1 20), .Tuple [(pn "y" (mkPos 2 10 29), .Int 2)])])
      (.Copy (symSelector "a" (mkPos 3 1 40))
        [(bw "o" (mkPos 3 3 42),
          .Copy (symSelector "b" (mkPos 3 7 46))
            [(bw "z" (mkPos 3 9 48), symExpr "self" (mkPos 3 13 52))]
            (mkPos 3 7 46))]
        (mkPos 3 1 40)) =
    .ok ({ testBuilder
        [(pn "a" (mkPos 1 1 0), .Tuple [(pn "x" (mkPos 1 10 9), .Int 1)]),
         (pn "b" (mkPos 2 1 20), .Tuple [(pn "y" (mkPos 2 10 29), .Int 2)])]
          with stack := some [] },
      .Tuple [(pn "x" (mkPos 1 10 9), .Int 1),
        (pn "o" (mkPos 3 3 42),
          .Tuple [(pn "y" (mkPos 2 10 29), .Int 2),
            (pn "z" (mkPos 3 9 48), .Tuple [(pn "x" (mkPos 1 10 9), .Int 1)])])])) ∧
    (find_in_fieldlist "z"
        [(pn "y" (mkPos 2 10 29), .Int 2),
         (pn "z" (mkPos 3 9 48), .Tuple [(pn "x" (mkPos 1 10 9), .Int 1)])] =
      some (.Tuple [(pn "x" (mkPos 1 10 9), .Int 1)])) ∧
    (valEqual (.Tuple [(pn "x" (mkPos 1 10 9), .Int 1)])
        (.Tuple [(pn "x" (mkPos 1 10 9), .Int 1)]) = true) ∧
    (valEqual (.Tuple [(pn "x" (mkPos 1 10 9), .Int 1)])
        (.Tuple [(pn "y" (mkPos 2 10 29), .Int 2)]) = false) :=
  ⟨rfl, rfl, rfl, rfl⟩

/--
Claim C6 (code behaviour at the failing input): environment lookups behave as
claimed only in strict mode.  With the snapshotted environment
`HOME=/root, USER=alice`: strict lookup of `USER` returns `Str "alice"`, but
NON-strict lookup of `USER` returns `Empty` even though the variable is set
(the `else if !strict` branch fires on the first non-matching entry), and a
non-strict lookup in an empty environment is an error rather than `Empty`.
-/
theorem claimC6_env_lookup :
    (lookup_in_env true { typ := .BAREWORD, fragment := "USER", pos := mkPos 4 9 61 }
        [("HOME", "/root"), ("USER", "alice")] = .ok (.Str "alice")) ∧
    (lookup_in_env false { typ := .BAREWORD, fragment := "USER", pos := mkPos 4 9 61 }
        [("HOME", "/root"), ("USER", "alice")] = .ok .Empty) ∧
    (lookup_in_env false { typ := .BAREWORD, fragment := "USER", pos := mkPos 4 9 61 } [] =
      .error (.build ⟨"Environment Variable USER not set", .NoSuchSymbol, mkPos 4 9 61⟩)) :=
  ⟨rfl, rfl, rfl⟩

/--
Claim C7 (code behaviour at the failing input): importing the relative path
`"b.ucg"` from the file `/dir/a.ucg` resolves — before canonicalisation —
against the importing file's OWN path, yielding `/dir/a.ucg/b.ucg`, not
against its directory as the claim states (`/dir/b.ucg`); absolute import
paths are used as-is.
-/
theorem claimC7_import_path_resolution :
    (build_import_normalized { absolute := true, components := ["dir", "a.ucg"] }
        { absolute := false, components := ["b.ucg"] } =
      { absolute := true, components := ["dir", "a.ucg", "b.ucg"] }) ∧
    (spec_import_resolve { absolute := true, components := ["dir", "a.ucg"] }
        { absolute := false, components := ["b.ucg"] } =
      { absolute := true, components := ["dir", "b.ucg"] }) ∧
    (build_import_normalized { absolute := true, components := ["dir", "a.ucg"] }
        { absolute := false, components := ["b.ucg"] } ≠
      spec_import_resolve { absolute := true, components := ["dir", "a.ucg"] }
        { absolute := false, components := ["b.ucg"] }) ∧
    (build_import_normalized { absolute := true, components := ["dir", "a.ucg"] }
        { absolute := true, components := ["etc", "b.ucg"] } =
      { absolute := true, components := ["etc", "b.ucg"] }) := by
  refine ⟨rfl, rfl, ?_, rfl⟩
  decide

/--
Counterexample to claim C9: the assertion collector maintains NO counter.  Its
state is exactly (success, summary, failures), and no function of that state
can start at 0 on the fresh collector and increase by exactly one on every
assert update: two successful asserts of `a` and `b` leave the collector in
the very same state as one successful assert of the fragment
`a' at line: 1 column: 8\nOK - 'b`, so such a function would have to take both
the values 2 and 1 there.
-/
theorem claimC9_counterexample :
    ¬ ∃ counter : AssertCollector → Nat,
        counter initial_collector = 0 ∧
        ∀ (col : AssertCollector) (tok : Token) (res : Except String Val),
          counter (build_assert_collector col tok res) = counter col + 1 := by
  rintro ⟨c, h0, hstep⟩
  have e2 : c (build_assert_collector
      (build_assert_collector initial_collector
        { typ := .QUOTED, fragment := "a", pos := mkPos 1 8 7 } (.ok (.Boolean true)))
      { typ := .QUOTED, fragment := "b", pos := mkPos 1 8 7 } (.ok (.Boolean true))) = 2 := by
    rw [hstep, hstep, h0]
  have e3 : c (build_assert_collector initial_collector
      { typ := .QUOTED, fragment := "a\x27 at line: 1 column: 8\nOK - \x27b",
        pos := mkPos 1 8 7 } (.ok (.Boolean true))) = 1 := by
    rw [hstep, h0]
  have key : build_assert_collector initial_collector
      { typ := .QUOTED, fragment := "a\x27 at line: 1 column: 8\nOK - \x27b",
        pos := mkPos 1 8 7 } (.ok (.Boolean true)) =
      build_assert_collector
        (build_assert_collector initial_collector
          { typ := .QUOTED, fragment := "a", pos := mkPos 1 8 7 } (.ok (.Boolean true)))
        { typ := .QUOTED, fragment := "b", pos := mkPos 1 8 7 } (.ok (.Boolean true)) := by
    decide
  rw [key] at e3
  omega

/--
Claim C9 (amended): in validate mode the assertion collector — whose state is
exactly the success flag (the AND of all assertion results), the summary and
the failures buffer, with no counter — processes
`assert "1 == 1"; assert "1 == 2";` as follows: `1 == 1` evaluates to
`Boolean(true)` and `1 == 2` to `Boolean(false)`, and the resulting collector
has success = false, a summary holding both result lines, and the failures
buffer holding exactly the second assertion's NOT OK line.
-/
theorem claimC9_assert_collector :
    (eval_expr 9 (testBuilder [])
        (.Compare .Equal (intExpr 1 (mkPos 1 9 8)) (intExpr 1 (mkPos 1 14 13))
          (mkPos 1 9 8)) =
      .ok (testBuilder [], .Boolean true)) ∧
    (eval_expr 9 (testBuilder [])
        (.Compare .Equal (intExpr 1 (mkPos 1 27 26)) (intExpr 2 (mkPos 1 32 31))
          (mkPos 1 27 26)) =
      .ok (testBuilder [], .Boolean false)) ∧
    (build_assert_collector
        (build_assert_collector initial_collector
          { typ := .QUOTED, fragment := "1 == 1", pos := mkPos 1 8 7 }
          (.ok (.Boolean true)))
        { typ := .QUOTED, fragment := "1 == 2", pos := mkPos 1 26 25 }
        (.ok (.Boolean false)) =
      { success := false,
        summary := assert_msg_ok "1 == 1" (mkPos 1 8 7) ++
          assert_msg_not_ok "1 == 2" (mkPos 1 26 25),
        failures := assert_msg_not_ok "1 == 2" (mkPos 1 26 25) }) := by
  refine ⟨rfl, rfl, ?_⟩
  decide

end UCG
